import Mathlib

/-!
Verification of the sms-to-telegram gateway core (Go) against its
natural-language specification.  Each Go function that a claim touches is
shallowly embedded as an executable Lean definition; machine integers are
modelled as `Nat`/`Int` (byte values are `Nat < 256` coming from the hex
decoder), Go strings as Lean `String` (raw 8-bit payloads are mapped
byte-for-byte onto code points; no claim depends on that representation),
fallible Go functions as `Except`/`Option`, and the two real-time loops
(the AT command read loop and the network-registration grace loop) as
step-indexed loops whose iteration budget abstracts the wall-clock
deadline.
-/

set_option autoImplicit false
set_option maxRecDepth 40000

instance {ε α : Type} [DecidableEq ε] [DecidableEq α] : DecidableEq (Except ε α) :=
  fun x y =>
    match x, y with
    | .ok a, .ok b =>
      if h : a = b then isTrue (by rw [h]) else isFalse (by simp [h])
    | .error a, .error b =>
      if h : a = b then isTrue (by rw [h]) else isFalse (by simp [h])
    | .ok _, .error _ => isFalse (by simp)
    | .error _, .ok _ => isFalse (by simp)

namespace SMSGW

/-! ## Shared string helpers (List Char models of the Go strings package)

`strings.TrimSpace`, `strings.Split`, `strings.HasPrefix` and
`strings.TrimPrefix` are modelled on `List Char`.  TrimSpace is modelled on
the ASCII whitespace set (the Go original also trims rare Unicode spaces;
no modem response in scope contains those). -/

def isSpaceChar (c : Char) : Bool :=
  c = ' ' || c = '\t' || c = '\n' || c = '\r'

def dropLeadSpaces : List Char → List Char
  | [] => []
  | c :: cs => if isSpaceChar c then dropLeadSpaces cs else c :: cs

def trimSpaceList (l : List Char) : List Char :=
  (dropLeadSpaces (dropLeadSpaces l.reverse).reverse)

def trimSpace (s : String) : String :=
  (trimSpaceList s.toList).asString

/-- `listStarts l p` is true iff `p` is an initial segment of `l`. -/
def listStarts : List Char → List Char → Bool
  | _, [] => true
  | [], _ :: _ => false
  | c :: cs, p :: ps => c = p && listStarts cs ps

def strStarts (s pre : String) : Bool :=
  listStarts s.toList pre.toList

/-- Model of Go `strings.Split(s, ",")`. -/
def splitCommaAux (cur : List Char) : List Char → List (List Char)
  | [] => [cur.reverse]
  | c :: cs =>
    if c = ',' then cur.reverse :: splitCommaAux [] cs
    else splitCommaAux (c :: cur) cs

def splitComma (s : String) : List String :=
  (splitCommaAux [] s.toList).map List.asString

/-- Model of Go `strings.TrimPrefix(s, pre)` (drop `pre` when present). -/
def dropLead (s pre : String) : String :=
  if strStarts s pre then (s.toList.drop pre.toList.length).asString else s

/-! ## Service-centre timestamp decoder (`decodeSCTS`, pdu chunk of main.go)

```go
decodeBCD := func(b byte) int { return int(b&0x0F)*10 + int((b>>4)&0x0F) }
```
The final `time.Date(year, month, ..., loc)` call is modelled by recording
the components passed to it together with the zone offset in seconds
(`time.FixedZone("", tzOffset)`); Go's `time.Date` normalizes out-of-range
components, which is the identity on the in-range components the claims
touch. -/

def decodeBCD (b : Nat) : Nat :=
  (b % 16) * 10 + ((b / 16) % 16)

/-- The instant handed to `time.Date`, with its fixed UTC offset. -/
structure GoTime where
  year : Nat
  month : Nat
  day : Nat
  hour : Nat
  minute : Nat
  second : Nat
  tzOffsetSeconds : Int
  deriving DecidableEq, Repr

/-- Go's `time.Time{}` zero value (January 1, year 1, 00:00:00 UTC),
returned when fewer than 7 bytes are supplied. -/
def goZeroTime : GoTime :=
  { year := 1, month := 1, day := 1, hour := 0, minute := 0, second := 0,
    tzOffsetSeconds := 0 }

def decodeSCTS : List Nat → GoTime
  | b0 :: b1 :: b2 :: b3 :: b4 :: b5 :: b6 :: _ =>
    let tzSign : Int := if b6 &&& 0x08 ≠ 0 then -1 else 1
    let tzb := if b6 &&& 0x08 ≠ 0 then b6 &&& 0xF7 else b6
    let tzQuarters := decodeBCD tzb
    { year := 2000 + decodeBCD b0, month := decodeBCD b1, day := decodeBCD b2,
      hour := decodeBCD b3, minute := decodeBCD b4, second := decodeBCD b5,
      tzOffsetSeconds := tzSign * tzQuarters * 15 * 60 }
  | _ => goZeroTime

/-! ## PDU codec (pdu chunk of main.go)

Byte slices are `List Nat` (every element < 256, produced by the hex
decoder).  Go strings built from decoded runes are Lean `String`s; the
8-bit alphabet branch (`string(userData)`, raw bytes) is mapped
byte-for-byte onto code points, which is injective on byte slices — no
claim depends on how raw bytes render. -/

/-- `encoding/hex` digit. -/
def hexDigitVal (c : Char) : Option Nat :=
  if '0' ≤ c ∧ c ≤ '9' then some (c.toNat - '0'.toNat)
  else if 'a' ≤ c ∧ c ≤ 'f' then some (c.toNat - 'a'.toNat + 10)
  else if 'A' ≤ c ∧ c ≤ 'F' then some (c.toNat - 'A'.toNat + 10)
  else none

/-- `hex.DecodeString`: fails on a non-hex digit or odd length. -/
def hexDecode : List Char → Option (List Nat)
  | [] => some []
  | [_] => none
  | a :: b :: rest =>
    match hexDigitVal a, hexDigitVal b, hexDecode rest with
    | some x, some y, some tail => some ((x * 16 + y) :: tail)
    | _, _, _ => none

/-- Digits of `decodePhoneNumber`: per byte, low nibble then high nibble,
each emitted only when ≤ 9 (so the `0xF` filler nibble is dropped). -/
def phoneDigits : List Nat → List Char
  | [] => []
  | b :: rest =>
    let lo := b % 16
    let hi := (b / 16) % 16
    ((if lo ≤ 9 then [Char.ofNat (48 + lo)] else []) ++
      (if hi ≤ 9 then [Char.ofNat (48 + hi)] else [])) ++ phoneDigits rest

def decodePhoneNumber (data : List Nat) (international : Bool) : String :=
  ((if international then ['+'] else []) ++ phoneDigits data).asString

/-- The GSM 7-bit default alphabet (index 27 is the escape code 0x1B,
stored in the table exactly as in the Go source). -/
def gsm7BitDefault : List Char :=
  "@£$¥èéùìòÇ\nØø\rÅåΔ_ΦΓΛΩΠΨΣΘΞ\x1bÆæßÉ !\"#¤%&'()*+,-./0123456789:;<=>?¡ABCDEFGHIJKLMNOPQRSTUVWXYZÄÖÑÜ§¿abcdefghijklmnopqrstuvwxyzäöñüà".toList

/-- The GSM 7-bit extension table (reached via escape 0x1B). -/
def gsm7BitExtension (b : Nat) : Option Char :=
  if b = 0x0A then some (Char.ofNat 12)        -- form feed
  else if b = 0x14 then some '^'
  else if b = 0x28 then some (Char.ofNat 0x7B) -- opening curly brace
  else if b = 0x29 then some (Char.ofNat 0x7D) -- closing curly brace
  else if b = 0x2F then some (Char.ofNat 92)   -- backslash
  else if b = 0x3C then some '['
  else if b = 0x3D then some '~'
  else if b = 0x3E then some ']'
  else if b = 0x40 then some '|'
  else if b = 0x65 then some '€'
  else none

/-- The septet-unpacking loop of `decodeGSM7Bit`: one step per collected
septet, stopping when the byte index runs off the data. -/
def unpackSeptets (data : List Nat) : Nat → Nat → List Nat
  | 0, _ => []
  | n + 1, bitPos =>
    if data.length ≤ bitPos / 8 then []
    else
      let byteIdx := bitPos / 8
      let bitOffset := bitPos % 8
      let cur := data.getD byteIdx 0 >>> bitOffset
      let cur2 :=
        if 8 - bitOffset < 7 ∧ byteIdx + 1 < data.length then
          cur ||| (data.getD (byteIdx + 1) 0 <<< (8 - bitOffset))
        else cur
      (cur2 &&& 0x7F) :: unpackSeptets data n (bitPos + 7)

/-- The septet-to-rune loop: escape code 0x1B switches only the next
septet into the extension table (space for unmapped extension codes). -/
def septetsToChars : List Nat → Bool → List Char
  | [], _ => []
  | s :: rest, escape =>
    if s = 0x1B then septetsToChars rest true
    else if escape then
      (match gsm7BitExtension s with
        | some r => r
        | none => ' ') :: septetsToChars rest false
    else
      (if s < gsm7BitDefault.length then gsm7BitDefault.getD s '?' else '?') ::
        septetsToChars rest false

/-- `decodeGSM7Bit(data, numChars, fillBits)`; `numChars` is a Go `int`
and may be negative after the UDH septet adjustment, in which case the
unpack loop runs zero iterations. -/
def decodeGSM7Bit (data : List Nat) (numChars : Int) (fillBits : Nat) : String :=
  if data = [] then ""
  else (septetsToChars (unpackSeptets data numChars.toNat fillBits) false).asString

/-- Big-endian 16-bit units of `decodeUCS2` (a trailing odd byte is
dropped by the `i+1 < len` loop guard). -/
def bytesToU16BE : List Nat → List Nat
  | hi :: lo :: rest => ((hi <<< 8) ||| lo) :: bytesToU16BE rest
  | _ => []

/-- `utf16.Decode`: surrogate pairs combine; unpaired surrogates become
U+FFFD. -/
def utf16DecodeChars : List Nat → List Char
  | [] => []
  | [u] => if u < 0xD800 ∨ 0xDFFF < u then [Char.ofNat u] else ['�']
  | u :: v :: rest2 =>
    if u < 0xD800 ∨ 0xDFFF < u then Char.ofNat u :: utf16DecodeChars (v :: rest2)
    else if u < 0xDC00 then
      if 0xDC00 ≤ v ∧ v < 0xE000 then
        Char.ofNat (0x10000 + (u - 0xD800) * 0x400 + (v - 0xDC00)) ::
          utf16DecodeChars rest2
      else '�' :: utf16DecodeChars (v :: rest2)
    else '�' :: utf16DecodeChars (v :: rest2)

def decodeUCS2 (data : List Nat) : String :=
  if data.length < 2 then ""
  else (utf16DecodeChars (bytesToU16BE data)).asString

/-- The 8-bit branch `string(userData)`: bytes mapped onto code points. -/
def decode8Bit (data : List Nat) : String :=
  (data.map Char.ofNat).asString

/-- The concatenation fields of a `PDUMessage` (zero values of the Go
struct when no concatenation IE is found). -/
structure ConcatInfo where
  isMultipart : Bool := false
  ref : Nat := 0
  total : Nat := 0
  part : Nat := 0
  deriving DecidableEq, Repr

/-- The IE scan loop of `parseUDH`.  Each iteration consumes at least two
bytes, so `fuel = udh.length` never runs out before the list does. -/
def parseUDHAux : Nat → ConcatInfo → List Nat → ConcatInfo
  | 0, acc, _ => acc
  | _ + 1, acc, [] => acc
  | _ + 1, acc, [_] => acc
  | fuel + 1, acc, iei :: iel :: rest =>
    if rest.length < iel then acc
    else
      let ieData := rest.take iel
      let acc' :=
        if iei = 0x00 ∧ 3 ≤ ieData.length then
          { isMultipart := true, ref := ieData.getD 0 0,
            total := ieData.getD 1 0, part := ieData.getD 2 0 }
        else if iei = 0x08 ∧ 4 ≤ ieData.length then
          { isMultipart := true,
            ref := (ieData.getD 0 0 <<< 8) ||| ieData.getD 1 0,
            total := ieData.getD 2 0, part := ieData.getD 3 0 }
        else acc
      parseUDHAux fuel acc' (rest.drop iel)

/-- `(*PDUMessage).parseUDH` restricted to its effect on the
concatenation fields. -/
def parseUDH (udh : List Nat) : ConcatInfo :=
  parseUDHAux udh.length {} udh

/-- Decoded SMS-DELIVER frame (`PDUMessage` in pdu chunk of main.go). -/
structure PDUMessage where
  SMSC : String := ""
  Sender : String := ""
  Timestamp : GoTime := goZeroTime
  Text : String := ""
  IsMultipart : Bool := false
  MultipartRef : Nat := 0
  PartNumber : Nat := 0
  TotalParts : Nat := 0
  deriving DecidableEq, Repr

/-- The distinct per-field parse failures of `ParsePDU`. -/
inductive PDUError where
  | invalidHex
  | pduTooShort (n : Nat)
  | smscExceeds
  | shortForType
  | notDeliver (mti : Nat)
  | shortForOALen
  | shortForOAType
  | oaExceeds
  | shortForPID
  | shortForDCS
  | shortForSCTS
  | shortForUDL
  | udhExceeds
  deriving DecidableEq, Repr

/-- `data[i]` (always in range where used; 0 is an arbitrary default). -/
def byteAt (data : List Nat) (i : Nat) : Nat := data.getD i 0

/-- `data[start:stop]`. -/
def sliceBytes (data : List Nat) (start stop : Nat) : List Nat :=
  (data.take stop).drop start

/-- Upper-case hex digit. -/
def hexDigitUpper (d : Nat) : Char :=
  if d < 10 then Char.ofNat (48 + d) else Char.ofNat (65 + d - 10)

/-- `fmt.Sprintf("%02X", n)` for `n < 256`. -/
def toHex2 (n : Nat) : String :=
  ⟨[hexDigitUpper (n / 16 % 16), hexDigitUpper (n % 16)]⟩

/-- The `msg` record as populated by `ParsePDU` (factored out so field
projections are stated once). -/
def mkMsg (smsc sender : String) (ts : GoTime) (text : String)
    (concat : ConcatInfo) : PDUMessage :=
  { SMSC := smsc, Sender := sender, Timestamp := ts, Text := text,
    IsMultipart := concat.isMultipart, MultipartRef := concat.ref,
    PartNumber := concat.part, TotalParts := concat.total }

/-! `ParsePDU` walks `data` with a running position; since every
intermediate of the Go function is a pure function of `data`, each is
named as a stage helper (the Go local of the same meaning is noted), and
the early-return chain becomes one ite chain over those helpers. -/

/-- Go `pos` after the SMSC field: `1 + smscLen` when an SMSC is present,
else `1`. -/
def smscPos (data : List Nat) : Nat :=
  if 0 < byteAt data 0 then 1 + byteAt data 0 else 1

/-- Go `msg.SMSC`. -/
def smscOf (data : List Nat) : String :=
  if 1 < byteAt data 0 then
    decodePhoneNumber (sliceBytes data 2 (1 + byteAt data 0))
      ((byteAt data 1 &&& 0x70) = 0x10)
  else ""

/-- Go `pduType`. -/
def pduTypeOf (data : List Nat) : Nat := byteAt data (smscPos data)

/-- Go `hasUDH` (bit 6 of the PDU type octet). -/
def hasUDHOf (data : List Nat) : Prop := pduTypeOf data &&& 0x40 ≠ 0

instance (data : List Nat) : Decidable (hasUDHOf data) := by
  unfold hasUDHOf; infer_instance

/-- Go `oaLen` (digit count of the originating address). -/
def oaLenOf (data : List Nat) : Nat := byteAt data (smscPos data + 1)

/-- Go `oaBytes = (oaLen + 1) / 2`. -/
def oaBytesOf (data : List Nat) : Nat := (oaLenOf data + 1) / 2

/-- Go `msg.Sender`. -/
def senderOf (data : List Nat) : String :=
  decodePhoneNumber
    (sliceBytes data (smscPos data + 3) (smscPos data + 3 + oaBytesOf data))
    ((byteAt data (smscPos data + 2) &&& 0x70) = 0x10)

/-- Go `pos` at the PID octet. -/
def p4Of (data : List Nat) : Nat := smscPos data + 3 + oaBytesOf data

/-- Go `dcs`. -/
def dcsOf (data : List Nat) : Nat := byteAt data (p4Of data + 1)

/-- Go `alphabet` (bits 2–3 of the DCS). -/
def alphabetOf (data : List Nat) : Nat := (dcsOf data >>> 2) &&& 0x03

/-- Go `msg.Timestamp`. -/
def tsOf (data : List Nat) : GoTime :=
  decodeSCTS (sliceBytes data (p4Of data + 2) (p4Of data + 9))

/-- Go `udl` before the UDH septet adjustment (a Go `int`). -/
def udlOf (data : List Nat) : Int := byteAt data (p4Of data + 9)

/-- Go `userData` before the UDH is stripped. -/
def userDataOf (data : List Nat) : List Nat := data.drop (p4Of data + 10)

/-- Go `udhLen` (0 when no UDH block is consumed). -/
def udhLenOf (data : List Nat) : Nat :=
  if hasUDHOf data ∧ userDataOf data ≠ [] then byteAt (userDataOf data) 0 + 1
  else 0

/-- The concatenation info parsed from the UDH (Go's `msg.parseUDH`
call), untouched when no UDH block is consumed. -/
def concatOf (data : List Nat) : ConcatInfo :=
  if hasUDHOf data ∧ userDataOf data ≠ [] then
    parseUDH (sliceBytes (userDataOf data) 1 (udhLenOf data))
  else {}

/-- Go `userData` after the UDH is stripped. -/
def userDataAfterOf (data : List Nat) : List Nat :=
  if hasUDHOf data ∧ userDataOf data ≠ [] then
    (userDataOf data).drop (udhLenOf data)
  else userDataOf data

/-- Go `udl` after the 7-bit septet adjustment for the UDH. -/
def udlAdjOf (data : List Nat) : Int :=
  if hasUDHOf data ∧ userDataOf data ≠ [] ∧ alphabetOf data = 0 then
    udlOf data - ((udhLenOf data * 8 + 6) / 7 : Nat)
  else udlOf data

/-- Go `fillBits` for the 7-bit decode. -/
def fillBitsOf (data : List Nat) : Nat :=
  if hasUDHOf data then (7 - (udhLenOf data * 8) % 7) % 7 else 0

/-- Go `msg.Text`: decode per alphabet, with the unknown-alphabet
placeholder. -/
def textOf (data : List Nat) : String :=
  if alphabetOf data = 0 then
    decodeGSM7Bit (userDataAfterOf data) (udlAdjOf data) (fillBitsOf data)
  else if alphabetOf data = 1 then decode8Bit (userDataAfterOf data)
  else if alphabetOf data = 2 then decodeUCS2 (userDataAfterOf data)
  else "[Unknown encoding DCS=" ++ toHex2 (dcsOf data) ++ "]"

/-- The body of `ParsePDU` after hex decoding: length floor, SMSC, PDU
type octet (MTI must be 0 = SMS-DELIVER), originating address, PID, DCS,
SCTS, UDL, optional UDH, then the assembled message. -/
def parsePDUData (data : List Nat) : Except PDUError PDUMessage :=
  if data.length < 10 then .error (.pduTooShort data.length)
  else if 0 < byteAt data 0 ∧ data.length < 1 + byteAt data 0 then
    .error .smscExceeds
  else if data.length ≤ smscPos data then .error .shortForType
  else if pduTypeOf data &&& 0x03 ≠ 0 then
    .error (.notDeliver (pduTypeOf data &&& 0x03))
  else if data.length ≤ smscPos data + 1 then .error .shortForOALen
  else if data.length ≤ smscPos data + 2 then .error .shortForOAType
  else if data.length < smscPos data + 3 + oaBytesOf data then .error .oaExceeds
  else if data.length ≤ p4Of data then .error .shortForPID
  else if data.length ≤ p4Of data + 1 then .error .shortForDCS
  else if data.length < p4Of data + 9 then .error .shortForSCTS
  else if data.length ≤ p4Of data + 9 then .error .shortForUDL
  else if hasUDHOf data ∧ userDataOf data ≠ [] ∧
      (userDataOf data).length < udhLenOf data then
    .error .udhExceeds
  else
    .ok (mkMsg (smscOf data) (senderOf data) (tsOf data) (textOf data)
      (concatOf data))

def ParsePDU (pduHex : String) : Except PDUError PDUMessage :=
  match hexDecode pduHex.toList with
  | none => .error .invalidHex
  | some data => parsePDUData data

/-! ## Multipart collector (pdu chunk of main.go)

`map[string]map[int]*PDUMessage` is modelled by association lists; the
outer key is the Go `fmt.Sprintf("%s:%d", sender, ref)` string, the inner
key the part number.  Go map iteration order is never observed by `Add`
(assembly walks part numbers `1..TotalParts` explicitly). -/

def groupLookup : List (Nat × PDUMessage) → Nat → Option PDUMessage
  | [], _ => none
  | (q, m) :: rest, p => if q = p then some m else groupLookup rest p

def groupInsert : List (Nat × PDUMessage) → Nat → PDUMessage →
    List (Nat × PDUMessage)
  | [], p, m => [(p, m)]
  | (q, m0) :: rest, p, m =>
    if q = p then (p, m) :: rest else (q, m0) :: groupInsert rest p m

def collLookup : List (String × List (Nat × PDUMessage)) → String →
    Option (List (Nat × PDUMessage))
  | [], _ => none
  | (k, g) :: rest, key => if k = key then some g else collLookup rest key

def collSet : List (String × List (Nat × PDUMessage)) → String →
    List (Nat × PDUMessage) → List (String × List (Nat × PDUMessage))
  | [], key, g => [(key, g)]
  | (k, g0) :: rest, key, g =>
    if k = key then (key, g) :: rest else (k, g0) :: collSet rest key g

def collErase : List (String × List (Nat × PDUMessage)) → String →
    List (String × List (Nat × PDUMessage))
  | [], _ => []
  | (k, g0) :: rest, key =>
    if k = key then collErase rest key else (k, g0) :: collErase rest key

structure MultipartCollector where
  parts : List (String × List (Nat × PDUMessage))
  deriving DecidableEq, Repr

/-- `NewMultipartCollector`. -/
def NewMultipartCollector : MultipartCollector := ⟨[]⟩

/-- The Go group key `fmt.Sprintf("%s:%d", msg.Sender, msg.MultipartRef)`. -/
def collKey (msg : PDUMessage) : String :=
  msg.Sender ++ ":" ++ toString msg.MultipartRef

/-- `fullText` of `Add`: concatenate slots `1..total` in ascending order,
a missing slot contributing nothing. -/
def assembleText (g : List (Nat × PDUMessage)) (total : Nat) : String :=
  (List.range' 1 total).foldl
    (fun acc i =>
      match groupLookup g i with
      | some part => acc ++ part.Text
      | none => acc) ""

/-- Outcome of one `Add` call: a non-nil `*PDUMessage`, a nil return
(incomplete group), or the nil-pointer dereference the Go code performs
when the completed group has no part 1 (`firstPart.Sender` with
`firstPart == nil`). -/
inductive AddResult where
  | msg (m : PDUMessage)
  | nil
  | panics
  deriving DecidableEq, Repr

/-- The group map `c.parts[key]` right after `c.parts[key][msg.PartNumber]
= msg` (a fresh map is allocated when the key was absent). -/
def addGroup (c : MultipartCollector) (msg : PDUMessage) :
    List (Nat × PDUMessage) :=
  groupInsert ((collLookup c.parts (collKey msg)).getD []) msg.PartNumber msg

/-- `(*MultipartCollector).Add`.  The group is keyed, the part stored,
and on `len == TotalParts` the group is assembled from part 1's metadata
and the ascending concatenation, then removed; the removal happens before
the Go code dereferences `firstPart`, so the `panics` outcome also
carries the erased state. -/
def MultipartCollector.Add (c : MultipartCollector) (msg : PDUMessage) :
    AddResult × MultipartCollector :=
  if !msg.IsMultipart then (.msg msg, c)
  else if (addGroup c msg).length = msg.TotalParts then
    match groupLookup (addGroup c msg) 1 with
    | none => (.panics, ⟨collErase c.parts (collKey msg)⟩)
    | some firstPart =>
      (.msg { Sender := firstPart.Sender, Timestamp := firstPart.Timestamp,
              Text := assembleText (addGroup c msg) msg.TotalParts,
              SMSC := firstPart.SMSC },
        ⟨collErase c.parts (collKey msg)⟩)
  else (.nil, ⟨collSet c.parts (collKey msg) (addGroup c msg)⟩)

/-- `(*MultipartCollector).Pending`: number of live groups. -/
def MultipartCollector.Pending (c : MultipartCollector) : Nat :=
  c.parts.length

/-- Sequential `Add` calls, collecting each call's return value. -/
def addAll (c : MultipartCollector) :
    List PDUMessage → List AddResult × MultipartCollector
  | [] => ([], c)
  | m :: rest =>
    let r := c.Add m
    let rs := addAll r.2 rest
    (r.1 :: rs.1, rs.2)

/-! ## ErrorNotifier (main.go, notifier chunk)

```go
type ErrorNotifier struct {
    lastErrorType DiagnosticErrorType
    tgBot *bot.Bot; chatIDs []int64; dryRun bool; hostname string; ...
}
```
The Telegram API itself is external; each chat's send outcome is an oracle
`sendOk : Int → Bool`.  `sendToTelegram` returns nil (here `true`) iff
dry-run is active, or the bot is present and every chat send succeeds,
mirroring the `errors.Join(sendErrors...)` accumulation. -/

inductive DiagnosticErrorType where
  | ErrTypeNone
  | ErrTypeSerialPort
  | ErrTypeModemNotResponding
  | ErrTypeSimNotDetected
  | ErrTypeSimPinRequired
  | ErrTypeSimPukLocked
  | ErrTypeNetworkDenied
  | ErrTypeNetworkNotRegistered
  | ErrTypeNoSignal
  deriving DecidableEq, Repr

open DiagnosticErrorType

structure ErrorNotifier where
  lastErrorType : DiagnosticErrorType
  botPresent : Bool
  chatIDs : List Int
  dryRun : Bool
  deriving DecidableEq, Repr

/-- `NewErrorNotifier` starts with no announced failure kind. -/
def NewErrorNotifier (botPresent : Bool) (chatIDs : List Int) (dryRun : Bool) :
    ErrorNotifier :=
  { lastErrorType := ErrTypeNone, botPresent := botPresent,
    chatIDs := chatIDs, dryRun := dryRun }

/-- `(*ErrorNotifier).sendToTelegram`: `true` models a nil error. -/
def ErrorNotifier.sendToTelegram (n : ErrorNotifier) (sendOk : Int → Bool) : Bool :=
  if n.dryRun then true
  else if !n.botPresent then false
  else n.chatIDs.all sendOk

/-- Result of one notifier call: returned flag, state after the call, and
whether a Telegram send was attempted at all. -/
structure NotifyOut where
  ret : Bool
  state : ErrorNotifier
  attempted : Bool
  deriving DecidableEq, Repr

/-- `(*ErrorNotifier).NotifyError`: skip when the kind equals the last
announced kind; otherwise attempt the send and record the kind only when
the send succeeded. -/
def ErrorNotifier.NotifyError (n : ErrorNotifier) (sendOk : Int → Bool)
    (errType : DiagnosticErrorType) : NotifyOut :=
  if errType = n.lastErrorType then
    { ret := false, state := n, attempted := false }
  else if n.sendToTelegram sendOk then
    { ret := true, state := { n with lastErrorType := errType }, attempted := true }
  else
    { ret := false, state := n, attempted := true }

/-- `(*ErrorNotifier).NotifyRecovery`: skip when no failure kind is
announced; otherwise attempt the send and clear the kind only when the
send succeeded. -/
def ErrorNotifier.NotifyRecovery (n : ErrorNotifier) (sendOk : Int → Bool) :
    NotifyOut :=
  if n.lastErrorType = ErrTypeNone then
    { ret := false, state := n, attempted := false }
  else if n.sendToTelegram sendOk then
    { ret := true, state := { n with lastErrorType := ErrTypeNone }, attempted := true }
  else
    { ret := false, state := n, attempted := true }

/-- `(*ErrorNotifier).HasError`. -/
def ErrorNotifier.HasError (n : ErrorNotifier) : Bool :=
  n.lastErrorType ≠ ErrTypeNone

/-! ## Command transport (`SimpleAT.CommandWithTimeout`, at.go)

The serial byte stream is abstracted as a script of read results: each
`bufio.Reader.ReadString('\n')` call either delivers a line or reports
no data (`noData`); an exhausted script keeps reporting no data, like a
silent device.  The wall-clock deadline `time.Now().Before(deadline)` is
abstracted as an iteration budget `fuel`; the claims are stated under the
hypothesis that the deadline allows the no-data polling budget
(`maxNoData`, one slice per 50 ms of the timeout, floor 1) to be the
binding limit, which is the case the spec describes. -/

inductive ReadEvent where
  | noData
  | line (s : String)
  deriving DecidableEq, Repr

/-- The error values of at.go.  `errors.Is` wrapping is reflected by
grouping: the three `timeout*` constructors wrap `ErrModemTimeout`, the
three `error*` constructors wrap `ErrModemError`. -/
inductive ATErr where
  | writeFailed
  | disconnect
  | timeoutNoData
  | timeoutAfterData
  | timeoutNoOK (n : Nat)
  | errorResp
  | cmeError (l : String)
  | cmsError (l : String)
  deriving DecidableEq, Repr

/-- `IsTimeoutError`: `errors.Is(err, ErrModemTimeout) || errors.Is(err,
ErrModemDisconnect)`. -/
def IsTimeoutError : ATErr → Bool
  | .disconnect | .timeoutNoData | .timeoutAfterData | .timeoutNoOK _ => true
  | _ => false

/-- `IsModemError`: `errors.Is(err, ErrModemError)`. -/
def IsModemError : ATErr → Bool
  | .errorResp | .cmeError _ | .cmsError _ => true
  | _ => false

/-- `maxNoData := int(timeout.Milliseconds() / 50); if maxNoData < 1 {
maxNoData = 1 }`. -/
def maxNoDataOf (timeoutMs : Nat) : Nat :=
  if timeoutMs / 50 < 1 then 1 else timeoutMs / 50

/-- The post-loop classification (reached when the deadline elapses or a
terminal token broke the loop). -/
def cmdFinish (lines : List String) (gotOK gotERROR : Bool) :
    Except ATErr (List String) :=
  if gotERROR then .error .errorResp
  else if !gotOK then
    if lines = [] then .error .timeoutNoData
    else .error (.timeoutNoOK lines.length)
  else .ok lines

/-- The read loop of `CommandWithTimeout`.  One recursive step per Go loop
iteration; `fuel = 0` models the deadline having elapsed. -/
def cmdLoop (cmd : String) (maxND : Nat) :
    Nat → List ReadEvent → List String → Bool → Bool → Nat →
    Except ATErr (List String)
  | 0, _, lines, gotOK, gotERROR, _ => cmdFinish lines gotOK gotERROR
  | fuel + 1, evs, lines, gotOK, gotERROR, noDataCount =>
    match evs with
    | [] =>
      -- silent stream: identical to a `noData` read
      let n := noDataCount + 1
      if n > maxND then
        if lines = [] then .error .disconnect else .error .timeoutAfterData
      else if gotOK || gotERROR then cmdFinish lines gotOK gotERROR
      else cmdLoop cmd maxND fuel [] lines gotOK gotERROR n
    | .noData :: rest =>
      let n := noDataCount + 1
      if n > maxND then
        if lines = [] then .error .disconnect else .error .timeoutAfterData
      else if gotOK || gotERROR then cmdFinish lines gotOK gotERROR
      else cmdLoop cmd maxND fuel rest lines gotOK gotERROR n
    | .line s :: rest =>
      let t := trimSpace s
      if t = "" || t = cmd then
        cmdLoop cmd maxND fuel rest lines gotOK gotERROR 0
      else if t = "OK" then cmdFinish lines true gotERROR
      else if t = "ERROR" then cmdFinish lines gotOK true
      else if strStarts t "+CME ERROR:" then .error (.cmeError t)
      else if strStarts t "+CMS ERROR:" then .error (.cmsError t)
      else cmdLoop cmd maxND fuel rest (lines ++ [t]) gotOK gotERROR 0

/-- `SimpleAT.CommandWithTimeout`: write the command (outcome `writeOk`),
then run the read loop. -/
def CommandWithTimeout (cmd : String) (timeoutMs : Nat) (writeOk : Bool)
    (fuel : Nat) (script : List ReadEvent) : Except ATErr (List String) :=
  if !writeOk then .error .writeFailed
  else cmdLoop cmd (maxNoDataOf timeoutMs) fuel script [] false false 0

/-! ## Telegram delivery with retry (`sendToTelegramWithRetry`, main.go)

The Telegram API is external: the oracle `send chat attempt` gives the
outcome of each `tgBot.SendMessage` call.  Backoff delays are pure waiting
and are not modelled; the context is never cancelled (cancellation aborts
the whole cycle and deletes nothing, which only strengthens the deletion
claims). -/

/-- Go `maxRetries := 10`. -/
def maxRetriesGo : Nat := 10

/-- The per-destination attempt loop: try attempts `attempt..maxRetries`,
stopping at the first success.  Returns the attempt numbers issued and
whether the destination was reached.  `fuel` is `maxRetries - attempt + 1`
at the top call, so it never runs out before `attempt = maxRetries`. -/
def tryChat (send : Int → Nat → Bool) (chat : Int) (maxRetries : Nat) :
    Nat → Nat → List Nat × Bool
  | 0, _ => ([], false)
  | fuel + 1, attempt =>
    if send chat attempt then ([attempt], true)
    else if attempt = maxRetries then ([attempt], false)
    else
      let r := tryChat send chat maxRetries fuel (attempt + 1)
      (attempt :: r.1, r.2)

/-- The destination loop: sequential chats, each with its own bounded
retry; per-chat failures are collected into `sendErrors` and joined, so
the first component is `true` (nil error) iff every chat was reached.
The second component logs every `(chatID, attempt)` issued. -/
def sendChats (send : Int → Nat → Bool) : List Int → Bool × List (Int × Nat)
  | [] => (true, [])
  | chat :: rest =>
    let r := tryChat send chat maxRetriesGo maxRetriesGo 1
    let rs := sendChats send rest
    (r.2 && rs.1, r.1.map (fun a => (chat, a)) ++ rs.2)

/-- `sendToTelegramWithRetry`: dry-run and missing-bot short circuits,
then the destination loop. -/
def sendToTelegramWithRetry (dryRun botPresent : Bool) (chatIDs : List Int)
    (send : Int → Nat → Bool) : Bool × List (Int × Nat) :=
  if dryRun then (true, [])
  else if !botPresent then (false, [])
  else sendChats send chatIDs

/-! ## Poll cycle (`processMessages`, main.go)

`listSMSMessages` is summarised by its result (the assembled messages and
the indices scheduled for deletion); message rendering does not affect
control flow, so a message is represented by its stored index and the
sink outcome for the i-th message's `sendToTelegramWithRetry` call comes
from the oracle `send i`.  `deleted` records each index passed to
`deleteSMS` (`AT+CMGD=<index>`), in order; a `deleteSMS` failure is
logged and skipped and so does not affect which commands are issued. -/

inductive PMError where
  | listFailed
  | deliverFailed
  deriving DecidableEq, Repr

structure PMOut where
  err : Option PMError
  deleted : List Int
  deriving DecidableEq, Repr

/-- The `unique` map + skip in the deletion loop: delete each index once,
keeping first occurrences. -/
def dedupKeep (seen : List Int) : List Int → List Int
  | [] => []
  | i :: rest =>
    if i ∈ seen then dedupKeep seen rest
    else i :: dedupKeep (i :: seen) rest

/-- The forward loop over message positions `i, i+1, ...` (`remaining`
counts the messages left): the first failed
`sendToTelegramWithRetry` aborts the cycle with the delivery error. -/
def forwardLoop (retryOk : Nat → Bool) : Nat → Nat → Option PMError
  | _, 0 => none
  | i, remaining + 1 =>
    if retryOk i then forwardLoop retryOk (i + 1) remaining
    else some .deliverFailed

/-- `processMessages`: list, forward every message, and only then issue
deletions (never in dry-run); the messages-empty branch still deletes
stale multipart indices. -/
def processMessages (dryRun botPresent : Bool) (chatIDs : List Int)
    (listRes : Except Unit (List Int × List Int))
    (send : Nat → Int → Nat → Bool) : PMOut :=
  match listRes with
  | .error _ => { err := some .listFailed, deleted := [] }
  | .ok (messages, indicesToDelete) =>
    if messages = [] then
      if indicesToDelete = [] then { err := none, deleted := [] }
      else if dryRun then { err := none, deleted := [] }
      else { err := none, deleted := dedupKeep [] indicesToDelete }
    else
      match forwardLoop
          (fun i => (sendToTelegramWithRetry dryRun botPresent chatIDs
            (send i)).1) 0 messages.length with
      | some e => { err := some e, deleted := [] }
      | none =>
        if dryRun then { err := none, deleted := [] }
        else { err := none, deleted := dedupKeep [] indicesToDelete }

/-! ## Diagnostics: the network-registration phase of
`runModemDiagnostics` (main.go lines 332–426)

One `AT+CREG?` poll is an `Option (List String)` (`none` models a command
error, after which `checkNetwork` leaves every flag reset and returns no
verdict).  The wall clock is abstracted: `elapsed` is the seconds since
`sessionStart` at the top of the loop, each sleep adds
`min 5 (grace - elapsed)` seconds, and the poll itself is instantaneous.
`fuel` bounds the loop; since every iteration advances `elapsed` by at
least one second and the loop exits once `elapsed ≥ grace`, `grace + 1`
units never run out before the real loop exits, and the fuel-exhausted
fallback coincides with the loop-exit classification. -/

structure NetCheck where
  cregChecked : Bool
  networkRegistered : Bool
  networkStat : String
  denied : Bool
  deriving DecidableEq, Repr

/-- One line of the `AT+CREG?` response inside `checkNetwork`: prefix
check, split on commas, take the trimmed `stat` field; `denied` records
the early `NetworkDenied` return (later lines are not processed). -/
def parseCREGLine (st : NetCheck) (line : String) : NetCheck :=
  if st.denied then st
  else if strStarts line "+CREG:" then
    let fields := splitComma (dropLead line "+CREG:")
    if 2 ≤ fields.length then
      let stat := trimSpace (fields.getD 1 "")
      { cregChecked := true,
        networkRegistered :=
          st.networkRegistered || (stat = "1" || stat = "5"),
        networkStat := stat,
        denied := stat = "3" }
    else { st with cregChecked := true }
  else st

/-- `checkNetwork`: flags are reset, then every response line is
scanned. -/
def checkNetwork (resp : Option (List String)) : NetCheck :=
  match resp with
  | none => ⟨false, false, "", false⟩
  | some ls => ls.foldl parseCREGLine ⟨false, false, "", false⟩

/-- The verdicts the registration phase can produce (healthy = fall
through to the end of `runModemDiagnostics`). -/
inductive RegVerdict where
  | healthy
  | networkDenied
  | networkNotRegistered
  deriving DecidableEq, Repr

/-- The post-loop classification (`simReady && cregChecked &&
!networkRegistered` ⇒ `NetworkNotRegistered`). -/
def regFinal (simReady : Bool) (st : NetCheck) : RegVerdict :=
  if simReady = true ∧ st.cregChecked = true ∧ st.networkRegistered = false
  then .networkNotRegistered
  else .healthy

/-- The grace loop, one recursive step per iteration. -/
def regLoop (simReady : Bool) (polls : Nat → Option (List String))
    (grace : Nat) : Nat → Nat → Nat → NetCheck → RegVerdict
  | 0, _, _, st => regFinal simReady st
  | fuel + 1, k, elapsed, st =>
    if ¬(simReady = true ∧ st.cregChecked = true ∧
        st.networkRegistered = false ∧ 0 < grace) then
      regFinal simReady st
    else if grace ≤ elapsed then regFinal simReady st
    else if st.networkStat ≠ "0" ∧ st.networkStat ≠ "2" ∧
        st.networkStat ≠ "4" then
      regFinal simReady st
    else
      let wait := min 5 (grace - elapsed)
      let st' := checkNetwork (polls k)
      if st'.denied then .networkDenied
      else regLoop simReady polls grace fuel (k + 1) (elapsed + wait) st'

/-- The whole registration phase: initial `checkNetwork` (whose denied
verdict returns immediately), then the grace loop. -/
def runRegistrationPhase (simReady : Bool)
    (polls : Nat → Option (List String)) (grace e0 : Nat) : RegVerdict :=
  if (checkNetwork (polls 0)).denied then .networkDenied
  else regLoop simReady polls grace (grace + 1) 1 e0 (checkNetwork (polls 0))

/-- A well-formed `+CREG: n,stat` response line. -/
def cregLine (stat : String) : String := "+CREG: 0," ++ stat

/-- Polls whose k-th response is the single well-formed line with stat
`σ k`. -/
def statPolls (σ : Nat → String) : Nat → Option (List String) :=
  fun k => some [cregLine (σ k)]

theorem sendToTelegram_set (n : ErrorNotifier) (sendOk : Int → Bool)
    (k : DiagnosticErrorType) :
    ({ n with lastErrorType := k } : ErrorNotifier).sendToTelegram sendOk =
      n.sendToTelegram sendOk := rfl

/-- C8: over any notifier state, when the underlying sends succeed:
`NotifyError` returns `false` and attempts no send when the kind equals the
last announced kind; it sends and returns `true` when the kind differs;
after a `NotifyRecovery` that returned `true`, the next `NotifyError` of
any (non-sentinel) kind sends and returns `true`; and `NotifyRecovery`
returns `false` (attempting nothing) when no kind is announced. -/
theorem notifier_dedup_spec
    (n : ErrorNotifier) (sendOk : Int → Bool) (k : DiagnosticErrorType)
    (hsend : n.sendToTelegram sendOk = true) :
    (k = n.lastErrorType →
      (n.NotifyError sendOk k).ret = false ∧
      (n.NotifyError sendOk k).attempted = false ∧
      (n.NotifyError sendOk k).state = n) ∧
    (k ≠ n.lastErrorType →
      (n.NotifyError sendOk k).ret = true ∧
      (n.NotifyError sendOk k).attempted = true ∧
      (n.NotifyError sendOk k).state.lastErrorType = k) ∧
    ((n.NotifyRecovery sendOk).ret = true →
      ∀ k', k' ≠ ErrTypeNone →
        ((n.NotifyRecovery sendOk).state.NotifyError sendOk k').ret = true ∧
        ((n.NotifyRecovery sendOk).state.NotifyError sendOk k').attempted = true) ∧
    (n.lastErrorType = ErrTypeNone →
      (n.NotifyRecovery sendOk).ret = false ∧
      (n.NotifyRecovery sendOk).attempted = false) := by
  refine ⟨fun hk => ?_, fun hk => ?_, fun hrec => ?_, fun hnone => ?_⟩
  · simp [ErrorNotifier.NotifyError, hk]
  · simp [ErrorNotifier.NotifyError, hk, hsend]
  · intro k' hk'
    have hmod : ∀ k0, ({ n with lastErrorType := k0 } : ErrorNotifier).sendToTelegram
        sendOk = true := fun k0 => by
      simpa [ErrorNotifier.sendToTelegram] using hsend
    unfold ErrorNotifier.NotifyRecovery at hrec ⊢
    by_cases h1 : n.lastErrorType = ErrTypeNone
    · simp [h1] at hrec
    · by_cases h2 : n.sendToTelegram sendOk = true
      · simp only [h1, h2, if_neg, if_pos, ite_true, ite_false]
        simp [ErrorNotifier.NotifyError, hk', hmod ErrTypeNone]
      · simp [h1, h2] at hrec
  · simp [ErrorNotifier.NotifyRecovery, hnone]

/-- C8 witness: concrete dry-run notifier, fresh state, a SIM error kind. -/
theorem notifier_dedup_spec_witness :
    (NewErrorNotifier true [(1 : Int)] true).sendToTelegram (fun _ => true) = true ∧
    ((NewErrorNotifier true [(1 : Int)] true).NotifyError (fun _ => true)
        ErrTypeSimNotDetected).ret = true :=
  ⟨by decide,
    ((notifier_dedup_spec (NewErrorNotifier true [(1 : Int)] true) (fun _ => true)
        ErrTypeSimNotDetected (by decide)).2.1 (by decide)).1⟩

/-- C10: when the underlying Telegram send fails, `NotifyError` leaves the
announced-kind state unchanged and returns `false` (so the kind will be
attempted again), `NotifyRecovery` likewise; and `NotifyRecovery` ends with
no announced kind iff either none was announced or the recovery send
actually succeeded. -/
theorem notifier_send_failure_spec
    (n : ErrorNotifier) (sendOk sendOk' : Int → Bool) (k : DiagnosticErrorType)
    (hfail : n.sendToTelegram sendOk = false) :
    ((n.NotifyError sendOk k).ret = false ∧ (n.NotifyError sendOk k).state = n) ∧
    ((n.NotifyRecovery sendOk).ret = false ∧ (n.NotifyRecovery sendOk).state = n) ∧
    ((n.NotifyRecovery sendOk').state.lastErrorType = ErrTypeNone ↔
      (n.lastErrorType = ErrTypeNone ∨ n.sendToTelegram sendOk' = true)) := by
  refine ⟨?_, ?_, ?_⟩
  · unfold ErrorNotifier.NotifyError
    by_cases hk : k = n.lastErrorType
    · simp [hk]
    · simp [hk, hfail]
  · unfold ErrorNotifier.NotifyRecovery
    by_cases h1 : n.lastErrorType = ErrTypeNone
    · simp [h1]
    · simp [h1, hfail]
  · unfold ErrorNotifier.NotifyRecovery
    by_cases h1 : n.lastErrorType = ErrTypeNone
    · simp [h1]
    · by_cases h2 : n.sendToTelegram sendOk' = true
      · simp [h1, h2]
      · simp [h1, h2]

/-- C10 witness: a live (non-dry-run) notifier whose only chat send fails. -/
theorem notifier_send_failure_spec_witness :
    ({ lastErrorType := ErrTypeNoSignal, botPresent := true,
       chatIDs := [(1 : Int)], dryRun := false } : ErrorNotifier).sendToTelegram
      (fun _ => false) = false ∧
    (({ lastErrorType := ErrTypeNoSignal, botPresent := true,
        chatIDs := [(1 : Int)], dryRun := false } : ErrorNotifier).NotifyError
      (fun _ => false) ErrTypeSimPinRequired).ret = false :=
  ⟨by decide,
    (notifier_send_failure_spec
      { lastErrorType := ErrTypeNoSignal, botPresent := true,
        chatIDs := [(1 : Int)], dryRun := false }
      (fun _ => false) (fun _ => false) ErrTypeSimPinRequired (by decide)).1.1⟩

theorem cmdLoop_silent (cmd : String) (maxND : Nat) :
    ∀ fuel k, maxND + 1 ≤ k + fuel → k ≤ maxND →
      cmdLoop cmd maxND fuel [] [] false false k = .error .disconnect := by
  intro fuel
  induction fuel with
  | zero => intro k h1 h2; omega
  | succ fuel ih =>
    intro k h1 h2
    by_cases hgt : k + 1 > maxND
    · simp [cmdLoop, hgt]
    · have hk : k + 1 ≤ maxND := by omega
      simp [cmdLoop, hgt]
      exact ih (k + 1) (by omega) hk

theorem cmdLoop_silent_afterData (cmd : String) (maxND : Nat) (L : List String)
    (hL : L ≠ []) :
    ∀ fuel k, maxND + 1 ≤ k + fuel → k ≤ maxND →
      cmdLoop cmd maxND fuel [] L false false k = .error .timeoutAfterData := by
  intro fuel
  induction fuel with
  | zero => intro k h1 h2; omega
  | succ fuel ih =>
    intro k h1 h2
    by_cases hgt : k + 1 > maxND
    · simp [cmdLoop, hgt, hL]
    · have hk : k + 1 ≤ maxND := by omega
      simp [cmdLoop, hgt]
      exact ih (k + 1) (by omega) hk

/-- C3: with the write succeeding and the deadline budget permitting, a
stream that never yields a byte fails with `Disconnected` once the no-data
polling budget (`timeout/50 ms`, floor one slice) is exhausted; a stream
that yields one response line and then nothing fails with the
partial-response `Timeout`, a value distinct from `Disconnected`; both
satisfy `IsTimeoutError` and neither satisfies `IsModemError`. -/
theorem CommandWithTimeout_classification (cmd : String) (timeoutMs fuel fuel' : Nat)
    (s : String) :
    (maxNoDataOf timeoutMs + 1 ≤ fuel →
      CommandWithTimeout cmd timeoutMs true fuel [] = .error .disconnect) ∧
    (maxNoDataOf timeoutMs + 2 ≤ fuel' →
      trimSpace s ≠ "" → trimSpace s ≠ cmd →
      trimSpace s ≠ "OK" → trimSpace s ≠ "ERROR" →
      strStarts (trimSpace s) "+CME ERROR:" = false →
      strStarts (trimSpace s) "+CMS ERROR:" = false →
      CommandWithTimeout cmd timeoutMs true fuel' [.line s] =
        .error .timeoutAfterData) ∧
    ATErr.disconnect ≠ ATErr.timeoutAfterData ∧
    IsTimeoutError .disconnect = true ∧ IsTimeoutError .timeoutAfterData = true ∧
    IsModemError .disconnect = false ∧ IsModemError .timeoutAfterData = false ∧
    maxNoDataOf timeoutMs = max 1 (timeoutMs / 50) := by
  refine ⟨?_, ?_, by decide, by decide, by decide, by decide, by decide, ?_⟩
  · intro hfuel
    unfold CommandWithTimeout
    simp
    exact cmdLoop_silent cmd _ fuel 0 (by omega) (by omega)
  · intro hfuel h1 h2 h3 h4 h5 h6
    unfold CommandWithTimeout
    simp
    match fuel', hfuel with
    | fuel' + 1, hfuel =>
      simp only [cmdLoop, h1, h2, h3, h4, h5, h6, if_false, ite_false]
      simp [h1, h2, h3, h4, h5, h6]
      exact cmdLoop_silent_afterData cmd _ [trimSpace s] (by simp) fuel' 0
        (by omega) (by omega)
  · unfold maxNoDataOf
    by_cases h : timeoutMs / 50 < 1 <;> simp [h] <;> omega

/-- C3 witness: the `AT+CSQ` command with a one-second timeout, a silent
stream, and a stream delivering one `+CSQ` line then silence. -/
theorem CommandWithTimeout_classification_witness :
    maxNoDataOf 1000 + 1 ≤ 21 ∧
    CommandWithTimeout "AT+CSQ" 1000 true 21 [] = .error .disconnect ∧
    CommandWithTimeout "AT+CSQ" 1000 true 22 [.line "+CSQ: 15,99"] =
      .error .timeoutAfterData :=
  ⟨by decide,
    (CommandWithTimeout_classification "AT+CSQ" 1000 21 22 "+CSQ: 15,99").1
      (by decide),
    ((CommandWithTimeout_classification "AT+CSQ" 1000 21 22 "+CSQ: 15,99").2.1
      (by decide) (by decide) (by decide) (by decide) (by decide) (by decide)
      (by decide))⟩

theorem parseUDHAux_acc_or_multipart :
    ∀ (fuel : Nat) (l : List Nat) (acc : ConcatInfo),
      parseUDHAux fuel acc l = acc ∨ (parseUDHAux fuel acc l).isMultipart = true := by
  intro fuel
  induction fuel with
  | zero => intro l acc; left; rfl
  | succ fuel ih =>
    intro l acc
    match l with
    | [] => left; rfl
    | [_] => left; rfl
    | iei :: iel :: rest =>
      by_cases hlen : rest.length < iel
      · left; simp [parseUDHAux, hlen]
      · simp only [parseUDHAux]
        rw [if_neg hlen]
        split
        · rcases ih (rest.drop iel) _ with h | h
          · right; rw [h]
          · right; exact h
        · split
          · rcases ih (rest.drop iel) _ with h | h
            · right; rw [h]
            · right; exact h
          · exact ih (rest.drop iel) acc

theorem parseUDH_not_multipart (udh : List Nat)
    (h : (parseUDH udh).isMultipart = false) : parseUDH udh = {} := by
  rcases parseUDHAux_acc_or_multipart udh.length udh {} with hres | hres
  · exact hres
  · rw [parseUDH] at h
    rw [h] at hres
    exact Bool.noConfusion hres

theorem mkMsg_IsMultipart (a b : String) (c : GoTime) (d : String)
    (e : ConcatInfo) : (mkMsg a b c d e).IsMultipart = e.isMultipart := rfl

theorem mkMsg_PartNumber (a b : String) (c : GoTime) (d : String)
    (e : ConcatInfo) : (mkMsg a b c d e).PartNumber = e.part := rfl

theorem mkMsg_TotalParts (a b : String) (c : GoTime) (d : String)
    (e : ConcatInfo) : (mkMsg a b c d e).TotalParts = e.total := rfl

theorem concatOf_not_multipart (data : List Nat)
    (h : (concatOf data).isMultipart = false) :
    (concatOf data).part = 0 ∧ (concatOf data).total = 0 := by
  unfold concatOf at h ⊢
  split
  next hc =>
    rw [if_pos hc] at h
    rw [parseUDH_not_multipart _ h]
    exact ⟨rfl, rfl⟩
  next hc => exact ⟨rfl, rfl⟩

/-- C6 counterexample: the PDU
`00440B912143658709F10000422111510354210C0500032A0300C8329BFD06`
(UDH-present SMS-DELIVER whose concatenation IE carries reference 42,
total 3, part number 0) parses successfully with `PartNumber = 0`, outside
`[1, TotalParts]`; and the plain PDU
`00040B912143658709F100004221115103542105C8329BFD06` (no concatenation
header) parses successfully with `TotalParts = 0`, not 1. -/
theorem ParsePDU_invariant_counterexample :
    (ParsePDU "00440B912143658709F10000422111510354210C0500032A0300C8329BFD06").map
        (fun m => (m.IsMultipart, m.PartNumber, m.TotalParts)) =
      .ok (true, 0, 3) ∧
    (ParsePDU "00040B912143658709F100004221115103542105C8329BFD06").map
        (fun m => (m.IsMultipart, m.PartNumber, m.TotalParts)) =
      .ok (false, 0, 0) := by
  constructor <;> decide

/-- C6 amended: `ParsePDU` does not validate the concatenation header.  A
successfully parsed message without a concatenation header has
`IsMultipart = false` and `PartNumber = TotalParts = 0` (it is treated as
a single part downstream, but the field is 0, not 1); when a header is
present its reference, total and part number are copied verbatim from the
header bytes, with no range check relating `PartNumber` to `TotalParts`. -/
theorem ParsePDU_concat_fields (pduHex : String) (m : PDUMessage)
    (h : ParsePDU pduHex = .ok m) :
    (m.IsMultipart = false → m.PartNumber = 0 ∧ m.TotalParts = 0) ∧
    (∀ r t p : Nat, parseUDH [0x00, 0x03, r, t, p] =
      { isMultipart := true, ref := r, total := t, part := p }) ∧
    (∀ r1 r0 t p : Nat, parseUDH [0x08, 0x04, r1, r0, t, p] =
      { isMultipart := true, ref := (r1 <<< 8) ||| r0, total := t, part := p }) := by
  refine ⟨?_, ?_, ?_⟩
  · intro hmul
    unfold ParsePDU at h
    cases hc : hexDecode pduHex.toList with
    | none => rw [hc] at h; exact Except.noConfusion h
    | some data =>
      rw [hc] at h
      change parsePDUData data = Except.ok m at h
      unfold parsePDUData at h
      by_cases c1 : data.length < 10
      · rw [if_pos c1] at h; exact Except.noConfusion h
      rw [if_neg c1] at h
      by_cases c2 : 0 < byteAt data 0 ∧ data.length < 1 + byteAt data 0
      · rw [if_pos c2] at h; exact Except.noConfusion h
      rw [if_neg c2] at h
      by_cases c3 : data.length ≤ smscPos data
      · rw [if_pos c3] at h; exact Except.noConfusion h
      rw [if_neg c3] at h
      by_cases c4 : pduTypeOf data &&& 0x03 ≠ 0
      · rw [if_pos c4] at h; exact Except.noConfusion h
      rw [if_neg c4] at h
      by_cases c5 : data.length ≤ smscPos data + 1
      · rw [if_pos c5] at h; exact Except.noConfusion h
      rw [if_neg c5] at h
      by_cases c6 : data.length ≤ smscPos data + 2
      · rw [if_pos c6] at h; exact Except.noConfusion h
      rw [if_neg c6] at h
      by_cases c7 : data.length < smscPos data + 3 + oaBytesOf data
      · rw [if_pos c7] at h; exact Except.noConfusion h
      rw [if_neg c7] at h
      by_cases c8 : data.length ≤ p4Of data
      · rw [if_pos c8] at h; exact Except.noConfusion h
      rw [if_neg c8] at h
      by_cases c9 : data.length ≤ p4Of data + 1
      · rw [if_pos c9] at h; exact Except.noConfusion h
      rw [if_neg c9] at h
      by_cases c10 : data.length < p4Of data + 9
      · rw [if_pos c10] at h; exact Except.noConfusion h
      rw [if_neg c10] at h
      by_cases c11 : data.length ≤ p4Of data + 9
      · rw [if_pos c11] at h; exact Except.noConfusion h
      rw [if_neg c11] at h
      by_cases c12 : hasUDHOf data ∧ userDataOf data ≠ [] ∧
          (userDataOf data).length < udhLenOf data
      · rw [if_pos c12] at h; exact Except.noConfusion h
      rw [if_neg c12] at h
      rw [Except.ok.injEq] at h
      subst h
      rw [mkMsg_IsMultipart] at hmul
      rw [mkMsg_PartNumber, mkMsg_TotalParts]
      exact concatOf_not_multipart _ hmul
  · intro r t p
    simp [parseUDH, parseUDHAux]
  · intro r1 r0 t p
    simp [parseUDH, parseUDHAux]

/-- C6 witness for the amended claim: the plain `Hello` PDU. -/
theorem ParsePDU_concat_fields_witness :
    ParsePDU "00040B912143658709F100004221115103542105C8329BFD06" =
      .ok { SMSC := "", Sender := "+12345678901",
            Timestamp := { year := 2024, month := 12, day := 11, hour := 15,
                           minute := 30, second := 45, tzOffsetSeconds := 10800 },
            Text := "Hello", IsMultipart := false, MultipartRef := 0,
            PartNumber := 0, TotalParts := 0 } ∧
    ((0 : Nat) = 0 ∧ (0 : Nat) = 0) :=
  ⟨by decide,
    (ParsePDU_concat_fields "00040B912143658709F100004221115103542105C8329BFD06"
      { SMSC := "", Sender := "+12345678901",
        Timestamp := { year := 2024, month := 12, day := 11, hour := 15,
                       minute := 30, second := 45, tzOffsetSeconds := 10800 },
        Text := "Hello", IsMultipart := false, MultipartRef := 0,
        PartNumber := 0, TotalParts := 0 } (by decide)).1 rfl⟩

theorem collLookup_append_self (l : List (String × List (Nat × PDUMessage)))
    (key : String) (g : List (Nat × PDUMessage))
    (h : collLookup l key = none) : collLookup (l ++ [(key, g)]) key = some g := by
  induction l with
  | nil => simp [collLookup]
  | cons kv rest ih =>
    rw [collLookup] at h
    by_cases hk : kv.1 = key
    · rw [if_pos hk] at h; exact Option.noConfusion h
    · rw [if_neg hk] at h
      cases kv with
      | mk k0 g0 =>
        simp only [List.cons_append, collLookup]
        rw [if_neg hk]
        exact ih h

theorem collSet_of_not_mem (l : List (String × List (Nat × PDUMessage)))
    (key : String) (g : List (Nat × PDUMessage))
    (h : collLookup l key = none) : collSet l key g = l ++ [(key, g)] := by
  induction l with
  | nil => rfl
  | cons kv rest ih =>
    rw [collLookup] at h
    by_cases hk : kv.1 = key
    · rw [if_pos hk] at h; exact Option.noConfusion h
    · rw [if_neg hk] at h
      cases kv with
      | mk k0 g0 =>
        simp only [collSet]
        rw [if_neg hk]
        rw [ih h]
        rfl

theorem collSet_append_self (l : List (String × List (Nat × PDUMessage)))
    (key : String) (g g' : List (Nat × PDUMessage))
    (h : collLookup l key = none) :
    collSet (l ++ [(key, g)]) key g' = l ++ [(key, g')] := by
  induction l with
  | nil => simp [collSet]
  | cons kv rest ih =>
    rw [collLookup] at h
    by_cases hk : kv.1 = key
    · rw [if_pos hk] at h; exact Option.noConfusion h
    · rw [if_neg hk] at h
      cases kv with
      | mk k0 g0 =>
        simp only [List.cons_append, collSet]
        rw [if_neg hk]
        simp only [List.append_eq]
        rw [ih h]

theorem collErase_of_not_mem (l : List (String × List (Nat × PDUMessage)))
    (key : String) (h : collLookup l key = none) : collErase l key = l := by
  induction l with
  | nil => rfl
  | cons kv rest ih =>
    rw [collLookup] at h
    by_cases hk : kv.1 = key
    · rw [if_pos hk] at h; exact Option.noConfusion h
    · rw [if_neg hk] at h
      cases kv with
      | mk k0 g0 =>
        simp only [collErase]
        rw [if_neg hk, ih h]

theorem collErase_append_self (l : List (String × List (Nat × PDUMessage)))
    (key : String) (g : List (Nat × PDUMessage))
    (h : collLookup l key = none) :
    collErase (l ++ [(key, g)]) key = l := by
  induction l with
  | nil => simp [collErase]
  | cons kv rest ih =>
    rw [collLookup] at h
    by_cases hk : kv.1 = key
    · rw [if_pos hk] at h; exact Option.noConfusion h
    · rw [if_neg hk] at h
      cases kv with
      | mk k0 g0 =>
        simp only [List.cons_append, collErase]
        rw [if_neg hk]
        simp only [List.append_eq]
        rw [ih h]

theorem groupLookup_insert (g : List (Nat × PDUMessage)) (p : Nat)
    (m : PDUMessage) (q : Nat) :
    groupLookup (groupInsert g p m) q =
      if q = p then some m else groupLookup g q := by
  induction g with
  | nil =>
    simp only [groupInsert, groupLookup]
    by_cases hq : q = p
    · subst hq; simp
    · have hpq : ¬p = q := fun hh => hq hh.symm
      simp [hq, hpq]
  | cons qm rest ih =>
    obtain ⟨q0, m0⟩ := qm
    simp only [groupInsert]
    by_cases h0 : q0 = p
    · subst h0
      rw [if_pos rfl]
      simp only [groupLookup]
      by_cases hq : q = q0
      · subst hq; simp
      · have h1 : ¬q0 = q := fun hh => hq hh.symm
        simp [hq, h1]
    · rw [if_neg h0]
      simp only [groupLookup, ih]
      by_cases hq : q0 = q
      · subst hq
        have h1 : ¬q0 = p := h0
        simp [h1]
      · simp only [if_neg hq]

theorem groupInsert_length_of_not_mem (g : List (Nat × PDUMessage)) (p : Nat)
    (m : PDUMessage) (h : groupLookup g p = none) :
    (groupInsert g p m).length = g.length + 1 := by
  induction g with
  | nil => rfl
  | cons qm rest ih =>
    cases qm with
    | mk q0 m0 =>
      rw [groupLookup] at h
      by_cases h0 : q0 = p
      · rw [if_pos h0] at h; exact Option.noConfusion h
      · rw [if_neg h0] at h
        simp only [groupInsert]
        rw [if_neg h0]
        simp [ih h]

theorem foldl_assemble (g : List (Nat × PDUMessage)) (pm : Nat → PDUMessage) :
    ∀ (n s : Nat) (acc : String),
      (∀ i, s ≤ i → i < s + n → groupLookup g i = some (pm i)) →
      (List.range' s n).foldl
          (fun acc i =>
            match groupLookup g i with
            | some part => acc ++ part.Text
            | none => acc) acc =
        (List.range' s n).foldl (fun acc i => acc ++ (pm i).Text) acc := by
  intro n
  induction n with
  | zero => intro s acc h; rfl
  | succ n ih =>
    intro s acc h
    rw [List.range'_succ, List.foldl_cons, List.foldl_cons]
    rw [h s (Nat.le_refl s) (by omega)]
    exact ih (s + 1) (acc ++ (pm s).Text) (fun i h1 h2 => h i (by omega) (by omega))

theorem assembleText_all (g : List (Nat × PDUMessage)) (pm : Nat → PDUMessage)
    (total : Nat) (h : ∀ i, 1 ≤ i → i ≤ total → groupLookup g i = some (pm i)) :
    assembleText g total =
      (List.range' 1 total).foldl (fun acc i => acc ++ (pm i).Text) "" := by
  unfold assembleText
  exact foldl_assemble g pm total 1 "" (fun i h1 h2 => h i h1 (by omega))

theorem Add_nil_step (c : MultipartCollector) (m : PDUMessage)
    (hm : m.IsMultipart = true)
    (hne : (addGroup c m).length ≠ m.TotalParts) :
    c.Add m = (AddResult.nil, ⟨collSet c.parts (collKey m) (addGroup c m)⟩) := by
  unfold MultipartCollector.Add
  rw [hm]
  simp only [Bool.not_true]
  rw [if_neg (by decide : ¬(false = true)), if_neg hne]

theorem Add_complete_step (c : MultipartCollector) (m fp : PDUMessage)
    (hm : m.IsMultipart = true)
    (heq : (addGroup c m).length = m.TotalParts)
    (hfp : groupLookup (addGroup c m) 1 = some fp) :
    c.Add m = (AddResult.msg
        { Sender := fp.Sender, Timestamp := fp.Timestamp,
          Text := assembleText (addGroup c m) m.TotalParts, SMSC := fp.SMSC },
      ⟨collErase c.parts (collKey m)⟩) := by
  unfold MultipartCollector.Add
  rw [hm]
  simp only [Bool.not_true]
  rw [if_neg (by decide : ¬(false = true)), if_pos heq, hfp]

theorem Add_panics_step (c : MultipartCollector) (m : PDUMessage)
    (hm : m.IsMultipart = true)
    (heq : (addGroup c m).length = m.TotalParts)
    (hfp : groupLookup (addGroup c m) 1 = none) :
    c.Add m = (AddResult.panics, ⟨collErase c.parts (collKey m)⟩) := by
  unfold MultipartCollector.Add
  rw [hm]
  simp only [Bool.not_true]
  rw [if_neg (by decide : ¬(false = true)), if_pos heq, hfp]

theorem addAll_incomplete_aux
    (c0 : MultipartCollector) (pm : Nat → PDUMessage) (sender : String)
    (ref N : Nat)
    (hkey0 : collLookup c0.parts (sender ++ ":" ++ toString ref) = none)
    (hfields : ∀ i, 1 ≤ i → i ≤ N →
      (pm i).IsMultipart = true ∧ (pm i).Sender = sender ∧
      (pm i).MultipartRef = ref ∧ (pm i).PartNumber = i ∧ (pm i).TotalParts = N) :
    ∀ (todo done : List Nat) (g : List (Nat × PDUMessage))
      (c : MultipartCollector),
      (done ++ todo).Nodup →
      (∀ i ∈ done ++ todo, 1 ≤ i ∧ i ≤ N) →
      (done ++ todo).length < N →
      c.parts = c0.parts ++ [(sender ++ ":" ++ toString ref, g)] →
      (∀ i, groupLookup g i = if i ∈ done then some (pm i) else none) →
      g.length = done.length →
      (addAll c (todo.map pm)).1 = List.replicate todo.length AddResult.nil ∧
      ∃ g', (addAll c (todo.map pm)).2.parts =
        c0.parts ++ [(sender ++ ":" ++ toString ref, g')] := by
  intro todo
  induction todo with
  | nil =>
    intro done g c _ _ _ hc _ _
    exact ⟨rfl, ⟨g, hc⟩⟩
  | cons j todo ih =>
    intro done g c hnd hmem hlen hc hg hglen
    have hjmem : 1 ≤ j ∧ j ≤ N := hmem j (by simp)
    obtain ⟨hmul, hsend, href, hpart, htot⟩ := hfields j hjmem.1 hjmem.2
    have hck : collKey (pm j) = sender ++ ":" ++ toString ref := by
      unfold collKey; rw [hsend, href]
    have hjnotdone : j ∉ done := fun hmem' =>
      (List.nodup_append.mp hnd).2.2 hmem' (List.mem_cons_self j todo)
    have hlook : collLookup c.parts (collKey (pm j)) = some g := by
      rw [hck, hc]; exact collLookup_append_self _ _ _ hkey0
    have hag : addGroup c (pm j) = groupInsert g j (pm j) := by
      unfold addGroup; rw [hlook, hpart]; rfl
    have hglen1 : (groupInsert g j (pm j)).length = done.length + 1 := by
      rw [groupInsert_length_of_not_mem, hglen]
      rw [hg j, if_neg hjnotdone]
    have hne : (addGroup c (pm j)).length ≠ (pm j).TotalParts := by
      rw [hag, hglen1, htot]
      have hlen' : done.length + (todo.length + 1) < N := by
        simpa [List.length_append] using hlen
      omega
    simp only [List.map_cons, addAll]
    rw [Add_nil_step c (pm j) hmul hne]
    dsimp only
    have hstate' :
        (⟨collSet c.parts (collKey (pm j)) (addGroup c (pm j))⟩ :
          MultipartCollector).parts =
        c0.parts ++ [(sender ++ ":" ++ toString ref, groupInsert g j (pm j))] := by
      simp only [hck, hc, hag]
      exact collSet_append_self _ _ _ _ hkey0
    have heqlist : (done ++ [j]) ++ todo = done ++ j :: todo := by simp
    obtain ⟨hres, g', hg'⟩ :=
      ih (done ++ [j]) (groupInsert g j (pm j)) _
        (by rw [heqlist]; exact hnd)
        (by rw [heqlist]; exact hmem)
        (by rw [heqlist]; exact hlen)
        hstate'
        (by
          intro i
          rw [groupLookup_insert]
          by_cases hi : i = j
          · subst hi; simp
          · rw [if_neg hi, hg i]
            by_cases hid : i ∈ done
            · simp [hid]
            · simp [hid, hi])
        (by simp [hglen1])
    refine ⟨?_, ⟨g', ?_⟩⟩
    · simp only [List.length_cons, List.replicate_succ]
      rw [← hres]
    · rw [← hg']

theorem addAll_complete_aux
    (c0 : MultipartCollector) (pm : Nat → PDUMessage) (sender : String)
    (ref N : Nat)
    (hkey0 : collLookup c0.parts (sender ++ ":" ++ toString ref) = none)
    (hfields : ∀ i, 1 ≤ i → i ≤ N →
      (pm i).IsMultipart = true ∧ (pm i).Sender = sender ∧
      (pm i).MultipartRef = ref ∧ (pm i).PartNumber = i ∧ (pm i).TotalParts = N) :
    ∀ (todo done : List Nat) (g : List (Nat × PDUMessage))
      (c : MultipartCollector),
      todo ≠ [] →
      (done ++ todo).Perm (List.range' 1 N) →
      c.parts = c0.parts ++ [(sender ++ ":" ++ toString ref, g)] →
      (∀ i, groupLookup g i = if i ∈ done then some (pm i) else none) →
      g.length = done.length →
      (addAll c (todo.map pm)).1 =
        List.replicate (todo.length - 1) AddResult.nil ++
          [AddResult.msg
            { Sender := (pm 1).Sender, Timestamp := (pm 1).Timestamp,
              Text := (List.range' 1 N).foldl (fun acc i => acc ++ (pm i).Text) "",
              SMSC := (pm 1).SMSC }] ∧
      (addAll c (todo.map pm)).2.parts = c0.parts := by
  intro todo
  induction todo with
  | nil => intro done g c hne; exact absurd rfl hne
  | cons j todo ih =>
    intro done g c _ hperm hc hg hglen
    have hnd : (done ++ j :: todo).Nodup :=
      hperm.symm.nodup (List.nodup_range' 1 N)
    have hmemrange : ∀ i ∈ done ++ j :: todo, i ∈ List.range' 1 N :=
      fun i hi => hperm.subset hi
    have hmem : ∀ i ∈ done ++ j :: todo, 1 ≤ i ∧ i ≤ N := by
      intro i hi
      have := hmemrange i hi
      rw [List.mem_range'_1] at this
      omega
    have hlentot : done.length + (todo.length + 1) = N := by
      have := hperm.length_eq
      simpa [List.length_append, List.length_range'] using this
    have hjmem : 1 ≤ j ∧ j ≤ N := hmem j (by simp)
    obtain ⟨hmul, hsend, href, hpart, htot⟩ := hfields j hjmem.1 hjmem.2
    have hck : collKey (pm j) = sender ++ ":" ++ toString ref := by
      unfold collKey; rw [hsend, href]
    have hjnotdone : j ∉ done := fun hmem' =>
      (List.nodup_append.mp hnd).2.2 hmem' (List.mem_cons_self j todo)
    have hlook : collLookup c.parts (collKey (pm j)) = some g := by
      rw [hck, hc]; exact collLookup_append_self _ _ _ hkey0
    have hag : addGroup c (pm j) = groupInsert g j (pm j) := by
      unfold addGroup; rw [hlook, hpart]; rfl
    have hglen1 : (groupInsert g j (pm j)).length = done.length + 1 := by
      rw [groupInsert_length_of_not_mem, hglen]
      rw [hg j, if_neg hjnotdone]
    cases todo with
    | nil =>
      -- the j-th part completes the group
      have hNlen : done.length + 1 = N := by simpa using hlentot
      have heq : (addGroup c (pm j)).length = (pm j).TotalParts := by
        rw [hag, hglen1, htot, hNlen]
      have hmemdone : ∀ i, 1 ≤ i → i ≤ N → i ∈ done ++ [j] := by
        intro i h1 h2
        exact hperm.symm.subset (by rw [List.mem_range'_1]; omega)
      have hall : ∀ i, 1 ≤ i → i ≤ N →
          groupLookup (groupInsert g j (pm j)) i = some (pm i) := by
        intro i h1 h2
        rw [groupLookup_insert]
        by_cases hi : i = j
        · rw [if_pos hi, hi]
        · rw [if_neg hi, hg i, if_pos]
          rcases List.mem_append.mp (hmemdone i h1 h2) with hd | hj
          · exact hd
          · exact absurd (List.mem_singleton.mp hj) hi
      have hN1 : 1 ≤ N := by omega
      have hfp : groupLookup (addGroup c (pm j)) 1 = some (pm 1) := by
        rw [hag]; exact hall 1 (Nat.le_refl 1) hN1
      simp only [List.map_cons, List.map_nil, addAll]
      rw [Add_complete_step c (pm j) (pm 1) hmul heq hfp]
      dsimp only
      constructor
      · rw [hag, htot, assembleText_all (groupInsert g j (pm j)) pm N hall]
        rfl
      · rw [hck, hc]
        exact collErase_append_self _ _ _ hkey0
    | cons j' todo' =>
      have hne : (addGroup c (pm j)).length ≠ (pm j).TotalParts := by
        rw [hag, hglen1, htot]
        simp only [List.length_cons] at hlentot
        omega
      simp only [List.map_cons, addAll]
      rw [Add_nil_step c (pm j) hmul hne]
      dsimp only
      have hstate' :
          (⟨collSet c.parts (collKey (pm j)) (addGroup c (pm j))⟩ :
            MultipartCollector).parts =
          c0.parts ++ [(sender ++ ":" ++ toString ref, groupInsert g j (pm j))] := by
        simp only [hck, hc, hag]
        exact collSet_append_self _ _ _ _ hkey0
      have heqlist : (done ++ [j]) ++ j' :: todo' = done ++ j :: j' :: todo' := by
        simp
      obtain ⟨hres, hfinal⟩ :=
        ih (done ++ [j]) (groupInsert g j (pm j)) _
          (by simp)
          (by rw [heqlist]; exact hperm)
          hstate'
          (by
            intro i
            rw [groupLookup_insert]
            by_cases hi : i = j
            · subst hi; simp
            · rw [if_neg hi, hg i]
              by_cases hid : i ∈ done
              · simp [hid]
              · simp [hid, hi])
          (by simp [hglen1])
      refine ⟨?_, ?_⟩
      · simp only [List.map_cons, addAll] at hres
        rw [hres]
        simp [List.replicate_succ]
      · simp only [List.map_cons, addAll] at hfinal
        exact hfinal

/-- C4: a complete set of `N` multipart parts with the same sender and
reference and part numbers exactly `1..N`, added in any arrival order to a
collector that has no group under that key, returns nil for each of the
first `N-1` adds and on the `N`-th add returns the assembled message —
text is the concatenation of the part texts in ascending part-number
order, sender/timestamp/SMSC come from part 1 — the group is gone from
the live set, `Pending` is back to its starting value, and (for `N ≥ 2`)
the `N`-th add drops `Pending` by one. -/
theorem collector_multipart_assembly
    (c0 : MultipartCollector) (pm : Nat → PDUMessage) (sender : String)
    (ref N : Nat) (order : List Nat)
    (hN : 1 ≤ N)
    (hkey0 : collLookup c0.parts (sender ++ ":" ++ toString ref) = none)
    (hperm : order.Perm (List.range' 1 N))
    (hfields : ∀ i, 1 ≤ i → i ≤ N →
      (pm i).IsMultipart = true ∧ (pm i).Sender = sender ∧
      (pm i).MultipartRef = ref ∧ (pm i).PartNumber = i ∧ (pm i).TotalParts = N) :
    (addAll c0 (order.map pm)).1 =
      List.replicate (N - 1) AddResult.nil ++
        [AddResult.msg
          { Sender := (pm 1).Sender, Timestamp := (pm 1).Timestamp,
            Text := (List.range' 1 N).foldl (fun acc i => acc ++ (pm i).Text) "",
            SMSC := (pm 1).SMSC }] ∧
    collLookup (addAll c0 (order.map pm)).2.parts
      (sender ++ ":" ++ toString ref) = none ∧
    (addAll c0 (order.map pm)).2.Pending = c0.Pending ∧
    (2 ≤ N →
      (addAll c0 ((order.take (N - 1)).map pm)).2.Pending = c0.Pending + 1) := by
  have hordlen : order.length = N := by
    simpa [List.length_range'] using hperm.length_eq
  cases order with
  | nil =>
    exfalso
    rw [List.length_nil] at hordlen
    omega
  | cons j rest =>
    have hjr : j ∈ List.range' 1 N := hperm.subset (by simp)
    have hjmem : 1 ≤ j ∧ j ≤ N := by
      rw [List.mem_range'_1] at hjr; omega
    obtain ⟨hmul, hsend, href, hpart, htot⟩ := hfields j hjmem.1 hjmem.2
    have hck : collKey (pm j) = sender ++ ":" ++ toString ref := by
      unfold collKey; rw [hsend, href]
    have hag0 : addGroup c0 (pm j) = [(j, pm j)] := by
      unfold addGroup; rw [hck, hkey0, hpart]; rfl
    cases rest with
    | nil =>
      have hN1 : N = 1 := by simpa using hordlen.symm
      have hj1 : j = 1 := by omega
      subst hj1
      have heq : (addGroup c0 (pm 1)).length = (pm 1).TotalParts := by
        rw [hag0, htot, hN1]; rfl
      have hfp : groupLookup (addGroup c0 (pm 1)) 1 = some (pm 1) := by
        rw [hag0]; simp [groupLookup]
      simp only [List.map_cons, List.map_nil, addAll]
      rw [Add_complete_step c0 (pm 1) (pm 1) hmul heq hfp]
      dsimp only
      have hparts : collErase c0.parts (collKey (pm 1)) = c0.parts := by
        rw [hck]; exact collErase_of_not_mem _ _ hkey0
    --
      refine ⟨?_, ?_, ?_, ?_⟩
      · rw [hN1]
        simp only [List.replicate, List.nil_append]
        rw [hag0, htot, hN1]
        rw [assembleText_all [(1, pm 1)] pm 1
          (by
            intro i h1 h2
            have hi1 : i = 1 := by omega
            subst hi1
            simp [groupLookup])]
      · rw [hparts]; exact hkey0
      · unfold MultipartCollector.Pending
        rw [hparts]
      · intro h2; exfalso; omega
    | cons j2 rest2 =>
      have hN2 : 2 ≤ N := by
        simp only [List.length_cons] at hordlen
        omega
      have hne : (addGroup c0 (pm j)).length ≠ (pm j).TotalParts := by
        rw [hag0, htot]
        simp only [List.length_cons, List.length_nil]
        omega
      have hc1 : (⟨collSet c0.parts (collKey (pm j)) (addGroup c0 (pm j))⟩ :
          MultipartCollector).parts =
          c0.parts ++ [(sender ++ ":" ++ toString ref, [(j, pm j)])] := by
        simp only [hck, hag0]
        exact collSet_of_not_mem _ _ _ hkey0
      have hg1 : ∀ i, groupLookup [(j, pm j)] i =
          if i ∈ [j] then some (pm i) else none := by
        intro i
        simp only [groupLookup]
        by_cases hi : j = i
        · subst hi; simp
        · have hij : ¬i = j := fun hh => hi hh.symm
          simp [hi, hij]
      obtain ⟨hres, hfinal⟩ :=
        addAll_complete_aux c0 pm sender ref N hkey0 hfields
          (j2 :: rest2) [j] [(j, pm j)] _
          (by simp)
          (by simpa using hperm)
          hc1 hg1 rfl
      have hres' := hres
      have hfinal' := hfinal
      simp only [List.map_cons, addAll] at hres' hfinal'
      refine ⟨?_, ?_, ?_, ?_⟩
      · simp only [List.map_cons, addAll]
        rw [Add_nil_step c0 (pm j) hmul hne]
        dsimp only
        rw [hres']
        have hlen2 : (j2 :: rest2).length = N - 1 := by
          simp only [List.length_cons] at hordlen ⊢
          omega
        rw [hlen2]
        have hsucc : N - 1 = (N - 2) + 1 := by omega
        rw [hsucc]
        simp [List.replicate_succ]
      · simp only [List.map_cons, addAll]
        rw [Add_nil_step c0 (pm j) hmul hne]
        dsimp only
        rw [hfinal']
        exact hkey0
      · simp only [List.map_cons, addAll]
        rw [Add_nil_step c0 (pm j) hmul hne]
        dsimp only
        unfold MultipartCollector.Pending
        rw [hfinal']
      · intro _
        have htake : (j :: j2 :: rest2).take (N - 1) =
            j :: ((j2 :: rest2).take (N - 2)) := by
          have hs : N - 1 = (N - 2) + 1 := by omega
          rw [hs, List.take_succ_cons]
        rw [htake]
        simp only [List.map_cons, addAll]
        rw [Add_nil_step c0 (pm j) hmul hne]
        dsimp only
        have hordnd : (j :: j2 :: rest2).Nodup :=
          hperm.symm.nodup (List.nodup_range' 1 N)
        have htsub : List.Sublist (j :: (j2 :: rest2).take (N - 2))
            (j :: j2 :: rest2) :=
          List.Sublist.cons₂ j (List.take_sublist _ _)
        obtain ⟨hresI, g', hgI⟩ :=
          addAll_incomplete_aux c0 pm sender ref N hkey0 hfields
            ((j2 :: rest2).take (N - 2)) [j] [(j, pm j)] _
            (by simpa using htsub.nodup hordnd)
            (by
              intro i hi
              have : i ∈ j :: j2 :: rest2 := htsub.subset (by simpa using hi)
              have hr : i ∈ List.range' 1 N := hperm.subset this
              rw [List.mem_range'_1] at hr
              omega)
            (by
              simp only [List.singleton_append, List.length_cons,
                List.length_take]
              simp only [List.length_cons] at hordlen
              omega)
            hc1 hg1 rfl
        unfold MultipartCollector.Pending
        rw [hgI]
        simp [List.length_append]

/-- C4 witness: the repo's own three-part scenario — parts 2, 1, 3 with
texts "B", "A", "C" — against a fresh collector. -/
theorem collector_multipart_assembly_witness :
    (addAll NewMultipartCollector
        ([2, 1, 3].map (fun i =>
          ({ Sender := "+1234567890", MultipartRef := 42, IsMultipart := true,
             PartNumber := i, TotalParts := 3,
             Text := if i = 1 then "A" else if i = 2 then "B" else "C" }
            : PDUMessage)))).1 =
      [AddResult.nil, AddResult.nil,
        AddResult.msg { Sender := "+1234567890", Text := "ABC" }] :=
  ((collector_multipart_assembly NewMultipartCollector
    (fun i =>
      ({ Sender := "+1234567890", MultipartRef := 42, IsMultipart := true,
         PartNumber := i, TotalParts := 3,
         Text := if i = 1 then "A" else if i = 2 then "B" else "C" }
        : PDUMessage))
    "+1234567890" 42 3 [2, 1, 3] (by decide) (by decide)
    (by decide)
    (by decide)).1).trans (by decide)

/-- C5 counterexample: a multipart part with `TotalParts = 1` but
`PartNumber = 2` (count matches without slot 1 filled) makes `Add`
dereference the missing part 1 — the Go code panics instead of returning
an assembled message. -/
theorem collector_missing_part1_panics :
    (MultipartCollector.Add NewMultipartCollector
      { Sender := "S", Text := "B", IsMultipart := true, MultipartRef := 5,
        PartNumber := 2, TotalParts := 1 }).1 = AddResult.panics := by
  decide

/-- C5 amended: assembly is best-effort over the slots `1..TotalParts`
only in the sense that missing middle slots and parts numbered outside
the range contribute no text — provided slot 1 is filled.  Here parts
1, 3 and 5 of a 3-part group (slot 2 missing, part 5 out of range) still
assemble, without panicking, to the concatenation of the texts of parts
1 and 3. -/
theorem collector_best_effort_assembly
    (sender smsc : String) (ref : Nat) (ts : GoTime) (t1 t3 t5 : String) :
    addAll NewMultipartCollector
      [{ Sender := sender, SMSC := smsc, Timestamp := ts, Text := t1,
         IsMultipart := true, MultipartRef := ref, PartNumber := 1,
         TotalParts := 3 },
       { Sender := sender, SMSC := smsc, Timestamp := ts, Text := t3,
         IsMultipart := true, MultipartRef := ref, PartNumber := 3,
         TotalParts := 3 },
       { Sender := sender, SMSC := smsc, Timestamp := ts, Text := t5,
         IsMultipart := true, MultipartRef := ref, PartNumber := 5,
         TotalParts := 3 }] =
      ([AddResult.nil, AddResult.nil,
        AddResult.msg { Sender := sender, Timestamp := ts, Text := t1 ++ t3,
                        SMSC := smsc }],
       NewMultipartCollector) := by
  simp [addAll, MultipartCollector.Add, addGroup, collKey, collLookup,
    groupInsert, groupLookup, collSet, collErase, assembleText,
    NewMultipartCollector, List.range']

theorem tryChat_mem_first (send : Int → Nat → Bool) (chat : Int)
    (m fuel a : Nat) (hf : 1 ≤ fuel) :
    a ∈ (tryChat send chat m fuel a).1 := by
  match fuel, hf with
  | fuel + 1, _ =>
    simp only [tryChat]
    by_cases h1 : send chat a = true
    · simp [h1]
    · by_cases h2 : a = m
      · subst h2
        rw [if_neg h1, if_pos rfl]
        simp
      · simp [h1, h2]

theorem tryChat_ok_iff (send : Int → Nat → Bool) (chat : Int) (m : Nat) :
    ∀ fuel a, a + fuel = m + 1 →
      ((tryChat send chat m fuel a).2 = true ↔
        ∃ b, a ≤ b ∧ b ≤ m ∧ send chat b = true) := by
  intro fuel
  induction fuel with
  | zero =>
    intro a ha
    constructor
    · intro h; exact absurd h (by simp [tryChat])
    · rintro ⟨b, hb1, hb2, _⟩; omega
  | succ fuel ih =>
    intro a ha
    simp only [tryChat]
    by_cases h1 : send chat a = true
    · simp only [h1, if_pos, ite_true]
      constructor
      · intro _; exact ⟨a, Nat.le_refl a, by omega, h1⟩
      · intro _; trivial
    · rw [if_neg h1]
      by_cases h2 : a = m
      · rw [if_pos h2]
        constructor
        · intro h; exact absurd h (by simp)
        · rintro ⟨b, hb1, hb2, hs⟩
          have hb : b = a := by omega
          rw [hb] at hs
          exact absurd hs h1
      · rw [if_neg h2]
        rw [ih (a + 1) (by omega)]
        constructor
        · rintro ⟨b, hb1, hb2, hs⟩; exact ⟨b, by omega, hb2, hs⟩
        · rintro ⟨b, hb1, hb2, hs⟩
          refine ⟨b, ?_, hb2, hs⟩
          rcases Nat.eq_or_lt_of_le hb1 with hb | hb
          · rw [← hb] at hs; exact absurd hs h1
          · omega

theorem tryChat_attempt_bounds (send : Int → Nat → Bool) (chat : Int) (m : Nat) :
    ∀ fuel a, a + fuel = m + 1 →
      ∀ x ∈ (tryChat send chat m fuel a).1, a ≤ x ∧ x ≤ m := by
  intro fuel
  induction fuel with
  | zero => intro a ha x hx; exact absurd hx (by simp [tryChat])
  | succ fuel ih =>
    intro a ha x hx
    simp only [tryChat] at hx
    by_cases h1 : send chat a = true
    · simp [h1] at hx
      omega
    · rw [if_neg h1] at hx
      by_cases h2 : a = m
      · rw [if_pos h2] at hx
        simp at hx
        omega
      · rw [if_neg h2] at hx
        simp at hx
        rcases hx with hx | hx
        · omega
        · have := ih (a + 1) (by omega) x hx
          omega

theorem sendChats_attempts_all (send : Int → Nat → Bool) :
    ∀ chatIDs : List Int, ∀ c ∈ chatIDs, (c, 1) ∈ (sendChats send chatIDs).2 := by
  intro chatIDs
  induction chatIDs with
  | nil => intro c hc; cases hc
  | cons chat rest ih =>
    intro c hc
    simp only [sendChats]
    rcases List.mem_cons.mp hc with hc | hc
    · subst hc
      apply List.mem_append_left
      exact List.mem_map_of_mem (fun a => (c, a))
        (tryChat_mem_first send c maxRetriesGo maxRetriesGo 1 (by decide))
    · exact List.mem_append_right _ (ih c hc)

theorem sendChats_ok_iff (send : Int → Nat → Bool) :
    ∀ chatIDs : List Int,
      ((sendChats send chatIDs).1 = true ↔
        ∀ c ∈ chatIDs, ∃ b, 1 ≤ b ∧ b ≤ maxRetriesGo ∧ send c b = true) := by
  intro chatIDs
  induction chatIDs with
  | nil => simp [sendChats]
  | cons chat rest ih =>
    simp only [sendChats, Bool.and_eq_true, ih]
    rw [tryChat_ok_iff send chat maxRetriesGo maxRetriesGo 1 (by decide)]
    constructor
    · rintro ⟨h1, h2⟩ c hc
      rcases List.mem_cons.mp hc with hc | hc
      · subst hc; exact h1
      · exact h2 c hc
    · intro h
      exact ⟨h chat (List.mem_cons_self _ _),
        fun c hc => h c (List.mem_cons_of_mem _ hc)⟩

theorem sendChats_attempt_bounds (send : Int → Nat → Bool) :
    ∀ chatIDs : List Int, ∀ p ∈ (sendChats send chatIDs).2,
      1 ≤ p.2 ∧ p.2 ≤ maxRetriesGo := by
  intro chatIDs
  induction chatIDs with
  | nil => intro p hp; exact absurd hp (by simp [sendChats])
  | cons chat rest ih =>
    intro p hp
    simp only [sendChats] at hp
    rcases List.mem_append.mp hp with hp | hp
    · obtain ⟨a, ha, hpa⟩ := List.mem_map.mp hp
      have := tryChat_attempt_bounds send chat maxRetriesGo maxRetriesGo 1
        (by decide) a ha
      rw [← hpa]
      exact this
    · exact ih p hp

/-- C2 counterexample: two destinations, the first failing every attempt
and the second succeeding — the call does attempt the second destination
(after the first has exhausted all `maxRetries` attempts), contradicting
"aborts ... without attempting the remaining destinations", and returns a
delivery failure. -/
theorem sendToTelegramWithRetry_counterexample :
    (sendToTelegramWithRetry false true [1, 2] (fun c _ => c == 2)).1 = false ∧
    ((1 : Int), maxRetriesGo) ∈
      (sendToTelegramWithRetry false true [1, 2] (fun c _ => c == 2)).2 ∧
    ((2 : Int), 1) ∈
      (sendToTelegramWithRetry false true [1, 2] (fun c _ => c == 2)).2 :=
  ⟨by decide, by decide, by decide⟩

/-- C2 amended: in a live run every configured destination is attempted —
a destination that exhausts its `maxRetries = 10` attempts is recorded as
failed and forwarding continues with the remaining destinations — the
call succeeds iff every destination is reached within its 10 attempts
(so one exhausted destination still makes the whole call return a
delivery failure), and no destination is tried more than 10 times. -/
theorem sendToTelegramWithRetry_spec (chatIDs : List Int)
    (send : Int → Nat → Bool) :
    (∀ c ∈ chatIDs, (c, 1) ∈ (sendToTelegramWithRetry false true chatIDs send).2) ∧
    ((sendToTelegramWithRetry false true chatIDs send).1 = true ↔
      ∀ c ∈ chatIDs, ∃ b, 1 ≤ b ∧ b ≤ maxRetriesGo ∧ send c b = true) ∧
    (∀ p ∈ (sendToTelegramWithRetry false true chatIDs send).2,
      1 ≤ p.2 ∧ p.2 ≤ maxRetriesGo) := by
  have hform : sendToTelegramWithRetry false true chatIDs send =
      sendChats send chatIDs := rfl
  rw [hform]
  exact ⟨sendChats_attempts_all send chatIDs, sendChats_ok_iff send chatIDs,
    sendChats_attempt_bounds send chatIDs⟩

theorem forwardLoop_none_iff (ok : Nat → Bool) :
    ∀ n i, forwardLoop ok i n = none ↔ ∀ k, k < n → ok (i + k) = true := by
  intro n
  induction n with
  | zero => intro i; simp [forwardLoop]
  | succ n ih =>
    intro i
    simp only [forwardLoop]
    by_cases h : ok i = true
    · rw [if_pos h, ih (i + 1)]
      constructor
      · intro hall k hk
        cases k with
        | zero => simpa using h
        | succ k =>
          have heq : i + (k + 1) = (i + 1) + k := by omega
          rw [heq]
          exact hall k (by omega)
      · intro hall k hk
        have heq : (i + 1) + k = i + (k + 1) := by omega
        rw [heq]
        exact hall (k + 1) (by omega)
    · rw [if_neg h]
      constructor
      · intro hh; exact Option.noConfusion hh
      · intro hall
        have := hall 0 (by omega)
        simp at this
        exact absurd this h

theorem forwardLoop_some_eq (ok : Nat → Bool) :
    ∀ n i e, forwardLoop ok i n = some e → e = PMError.deliverFailed := by
  intro n
  induction n with
  | zero => intro i e he; exact Option.noConfusion he
  | succ n ih =>
    intro i e he
    simp only [forwardLoop] at he
    by_cases h : ok i = true
    · rw [if_pos h] at he
      exact ih (i + 1) e he
    · rw [if_neg h] at he
      exact (Option.some.injEq _ _ ▸ he).symm

/-- C1: in a poll cycle with at least one message whose
`sendToTelegramWithRetry` fails, `processMessages` returns the delivery
error and issues no deletion command at all; conversely, any cycle that
issues a deletion command had every message's forwarding succeed. -/
theorem processMessages_deletion_gate
    (dryRun botPresent : Bool) (chatIDs : List Int)
    (messages indicesToDelete : List Int) (send : Nat → Int → Nat → Bool) :
    ((∃ i, i < messages.length ∧
        (sendToTelegramWithRetry dryRun botPresent chatIDs (send i)).1 = false) →
      (processMessages dryRun botPresent chatIDs
        (.ok (messages, indicesToDelete)) send).err =
          some PMError.deliverFailed ∧
      (processMessages dryRun botPresent chatIDs
        (.ok (messages, indicesToDelete)) send).deleted = []) ∧
    ((processMessages dryRun botPresent chatIDs
        (.ok (messages, indicesToDelete)) send).deleted ≠ [] →
      ∀ i, i < messages.length →
        (sendToTelegramWithRetry dryRun botPresent chatIDs (send i)).1 = true) := by
  have hmain : (∃ i, i < messages.length ∧
      (sendToTelegramWithRetry dryRun botPresent chatIDs (send i)).1 = false) →
      (processMessages dryRun botPresent chatIDs
        (.ok (messages, indicesToDelete)) send).err =
          some PMError.deliverFailed ∧
      (processMessages dryRun botPresent chatIDs
        (.ok (messages, indicesToDelete)) send).deleted = [] := by
    rintro ⟨i, hi, hfail⟩
    have hmsgne : ¬messages = [] := by
      intro h; rw [h] at hi; simp at hi
    simp only [processMessages]
    rw [if_neg hmsgne]
    have hfl : forwardLoop
        (fun i => (sendToTelegramWithRetry dryRun botPresent chatIDs
          (send i)).1) 0 messages.length ≠ none := by
      rw [Ne, forwardLoop_none_iff]
      intro hall
      have := hall i hi
      simp only [Nat.zero_add] at this
      rw [hfail] at this
      exact Bool.noConfusion this
    cases hflr : forwardLoop
        (fun i => (sendToTelegramWithRetry dryRun botPresent chatIDs
          (send i)).1) 0 messages.length with
    | none => exact absurd hflr hfl
    | some e =>
      have he := forwardLoop_some_eq _ _ _ _ hflr
      subst he
      exact ⟨rfl, rfl⟩
  constructor
  · exact hmain
  · intro hdel i hi
    by_contra hok
    rw [Bool.not_eq_true] at hok
    exact hdel (hmain ⟨i, hi, hok⟩).2

/-- C1 witness: one message whose only destination always fails — no
index of the cycle is deleted. -/
theorem processMessages_deletion_gate_witness :
    (sendToTelegramWithRetry false true [(1 : Int)]
      ((fun (_ : Nat) (_ : Int) (_ : Nat) => false) 0)).1 = false ∧
    (processMessages false true [(1 : Int)] (.ok ([7], [7]))
      (fun _ _ _ => false)).deleted = [] :=
  ⟨by decide,
    ((processMessages_deletion_gate false true [(1 : Int)] [7] [7]
      (fun _ _ _ => false)).1 ⟨0, by decide, by decide⟩).2⟩

theorem regLoop_registered (σ : Nat → String) (grace : Nat) :
    ∀ fuel k elapsed (st : NetCheck), st.networkRegistered = true →
      regLoop true (statPolls σ) grace fuel k elapsed st = regFinal true st := by
  intro fuel
  cases fuel with
  | zero => intro k e st _; rfl
  | succ fuel =>
    intro k e st h
    simp only [regLoop]
    rw [if_pos]
    intro hc
    rw [h] at hc
    exact Bool.noConfusion hc.2.2.1

theorem regLoop_notreg (σ : Nat → String) (grace : Nat)
    (hσ : ∀ j, σ j = "0" ∨ σ j = "2" ∨ σ j = "4") :
    ∀ fuel k elapsed (st : NetCheck), st.cregChecked = true →
      st.networkRegistered = false →
      (st.networkStat = "0" ∨ st.networkStat = "2" ∨ st.networkStat = "4") →
      regLoop true (statPolls σ) grace fuel k elapsed st =
        RegVerdict.networkNotRegistered := by
  intro fuel
  induction fuel with
  | zero =>
    intro k e st h1 h2 _
    simp [regLoop, regFinal, h1, h2]
  | succ fuel ih =>
    intro k e st h1 h2 h4
    simp only [regLoop]
    by_cases hg : 0 < grace
    · rw [if_neg (not_not_intro ⟨by trivial, h1, h2, hg⟩)]
      by_cases hel : grace ≤ e
      · rw [if_pos hel]; simp [regFinal, h1, h2]
      · rw [if_neg hel]
        have hstat : ¬(st.networkStat ≠ "0" ∧ st.networkStat ≠ "2" ∧
            st.networkStat ≠ "4") := by
          rcases h4 with h | h | h <;> simp [h]
        rw [if_neg hstat]
        rcases hσ k with hk | hk | hk <;>
          (simp only [statPolls, cregLine]
           rw [hk]
           rw [if_neg (by decide)]
           exact ih (k + 1) _ _ (by decide) (by decide) (by decide))
    · rw [if_pos (fun hA => hg hA.2.2.2)]
      simp [regFinal, h1, h2]

theorem regLoop_reach (σ : Nat → String) (grace e0 K : Nat)
    (hsched : e0 + 5 * (K - 1) < grace)
    (hsearch : ∀ j, 1 ≤ j → j < K → σ j = "0" ∨ σ j = "2" ∨ σ j = "4")
    (hlast : σ K = "3" ∨ σ K = "1" ∨ σ K = "5") :
    ∀ fuel k elapsed (st : NetCheck), 1 ≤ k → k ≤ K → K - k < fuel →
      elapsed ≤ e0 + 5 * (k - 1) →
      st.cregChecked = true → st.networkRegistered = false →
      (st.networkStat = "0" ∨ st.networkStat = "2" ∨ st.networkStat = "4") →
      regLoop true (statPolls σ) grace fuel k elapsed st =
        (if σ K = "3" then RegVerdict.networkDenied else RegVerdict.healthy) := by
  intro fuel
  induction fuel with
  | zero => intro k e st _ _ hf _ _ _ _; omega
  | succ fuel ih =>
    intro k e st hk1 hkK hf hel h1 h2 h4
    have hg : 0 < grace := by omega
    have hkK1 : k - 1 ≤ K - 1 := by omega
    have helK : e < grace := by
      have h5 : 5 * (k - 1) ≤ 5 * (K - 1) := by omega
      omega
    simp only [regLoop]
    rw [if_neg (not_not_intro ⟨by trivial, h1, h2, hg⟩)]
    rw [if_neg (by omega : ¬grace ≤ e)]
    have hstat : ¬(st.networkStat ≠ "0" ∧ st.networkStat ≠ "2" ∧
        st.networkStat ≠ "4") := by
      rcases h4 with h | h | h <;> simp [h]
    rw [if_neg hstat]
    by_cases hkeq : k = K
    · subst hkeq
      simp only [statPolls, cregLine]
      rcases hlast with h3 | h1' | h5'
      · rw [h3]
        rw [if_pos (by decide)]
        decide
      · rw [h1']
        rw [if_neg (by decide)]
        rw [regLoop_registered σ grace fuel (k + 1) _ _ (by decide)]
        decide
      · rw [h5']
        rw [if_neg (by decide)]
        rw [regLoop_registered σ grace fuel (k + 1) _ _ (by decide)]
        decide
    · have hmin : min 5 (grace - e) ≤ 5 := Nat.min_le_left _ _
      rcases hsearch k hk1 (by omega) with hk | hk | hk <;>
        (simp only [statPolls, cregLine]
         rw [hk]
         rw [if_neg (by decide)]
         exact ih (k + 1) (e + min 5 (grace - e)) _ (by omega) (by omega)
           (by omega) (by omega) (by decide) (by decide) (by decide))

/-- C7: with the SIM ready and a positive grace window, the registration
phase of `runModemDiagnostics` behaves as claimed: a `denied` status
(stat 3) observed at any poll within the grace schedule is immediately
terminal with `NetworkDenied`; statuses 0/2/4 are re-polled, and a
sequence that reaches registered-home or roaming (stat 1 or 5) at a poll
inside the grace window ends healthy; a sequence that never leaves
0/2/4 ends with `NetworkNotRegistered`.  (`e0` is the time already
elapsed at the first poll; loop poll `K ≥ 1` happens iff
`e0 + 5·(K-1) < grace`.) -/
theorem runModemDiagnostics_registration_spec
    (σ : Nat → String) (grace e0 K : Nat) (hgrace : 0 < grace) :
    ((∀ j, j < K → σ j = "0" ∨ σ j = "2" ∨ σ j = "4") →
      (K = 0 ∨ e0 + 5 * (K - 1) < grace) →
      ((σ K = "3" →
        runRegistrationPhase true (statPolls σ) grace e0 =
          RegVerdict.networkDenied) ∧
       ((σ K = "1" ∨ σ K = "5") →
        runRegistrationPhase true (statPolls σ) grace e0 =
          RegVerdict.healthy))) ∧
    ((∀ j, σ j = "0" ∨ σ j = "2" ∨ σ j = "4") →
      runRegistrationPhase true (statPolls σ) grace e0 =
        RegVerdict.networkNotRegistered) := by
  constructor
  · intro hsearch hK
    rcases Nat.eq_zero_or_pos K with hK0 | hKpos
    · subst hK0
      constructor
      · intro h3
        unfold runRegistrationPhase
        simp only [statPolls, cregLine]
        rw [h3]
        rw [if_pos (by decide)]
      · intro h15
        unfold runRegistrationPhase
        simp only [statPolls, cregLine]
        rcases h15 with h1' | h5'
        · rw [h1']
          rw [if_neg (by decide)]
          rw [regLoop_registered σ grace (grace + 1) 1 e0 _ (by decide)]
          decide
        · rw [h5']
          rw [if_neg (by decide)]
          rw [regLoop_registered σ grace (grace + 1) 1 e0 _ (by decide)]
          decide
    · have hsched : e0 + 5 * (K - 1) < grace := by
        rcases hK with h0 | h
        · omega
        · exact h
      have hreach : ∀ hlast : σ K = "3" ∨ σ K = "1" ∨ σ K = "5",
          runRegistrationPhase true (statPolls σ) grace e0 =
            (if σ K = "3" then RegVerdict.networkDenied
             else RegVerdict.healthy) := by
        intro hlast
        unfold runRegistrationPhase
        rcases hsearch 0 hKpos with h0 | h0 | h0 <;>
          (simp only [statPolls, cregLine]
           rw [h0]
           rw [if_neg (by decide)]
           exact regLoop_reach σ grace e0 K hsched
             (fun j hj1 hj2 => hsearch j hj2) hlast (grace + 1) 1 e0 _
             (Nat.le_refl 1) hKpos (by omega) (by omega)
             (by decide) (by decide) (by decide))
      constructor
      · intro h3
        rw [hreach (Or.inl h3), if_pos h3]
      · intro h15
        have hne3 : ¬σ K = "3" := by
          rcases h15 with h | h <;> (rw [h]; decide)
        rw [hreach (Or.inr h15), if_neg hne3]
  · intro hall
    unfold runRegistrationPhase
    rcases hall 0 with h0 | h0 | h0 <;>
      (simp only [statPolls, cregLine]
       rw [h0]
       rw [if_neg (by decide)]
       exact regLoop_notreg σ grace hall (grace + 1) 1 e0 _
         (by decide) (by decide) (by decide))

/-- C7 witness: grace 30 s starting at 0 s elapsed, status searching for
the first two polls and registered-home at the third — the verdict is
healthy; hypotheses are discharged concretely. -/
theorem runModemDiagnostics_registration_spec_witness :
    runRegistrationPhase true
      (statPolls (fun k => if k < 2 then "2" else "1")) 30 0 =
      RegVerdict.healthy :=
  ((runModemDiagnostics_registration_spec
      (fun k => if k < 2 then "2" else "1") 30 0 2 (by decide)).1
    (fun j hj => by interval_cases j <;> simp)
    (Or.inr (by decide))).2 (Or.inl (by decide))

/-- C9: the 7 BCD bytes `42 21 11 51 03 54 21` decode to
2024-12-11T15:30:45 at offset +03:00 (10800 seconds); in general every
byte is a nibble-swapped BCD pair, the year is 2000-based, and the zone is
signed quarter-hours whose sign is bit 3 of the final octet. -/
theorem decodeSCTS_spec :
    decodeSCTS [0x42, 0x21, 0x11, 0x51, 0x03, 0x54, 0x21] =
      { year := 2024, month := 12, day := 11, hour := 15, minute := 30,
        second := 45, tzOffsetSeconds := 3 * 3600 } ∧
    ∀ (b0 b1 b2 b3 b4 b5 b6 : Nat) (rest : List Nat),
      decodeSCTS (b0 :: b1 :: b2 :: b3 :: b4 :: b5 :: b6 :: rest) =
        { year := 2000 + (10 * (b0 % 16) + b0 / 16 % 16),
          month := 10 * (b1 % 16) + b1 / 16 % 16,
          day := 10 * (b2 % 16) + b2 / 16 % 16,
          hour := 10 * (b3 % 16) + b3 / 16 % 16,
          minute := 10 * (b4 % 16) + b4 / 16 % 16,
          second := 10 * (b5 % 16) + b5 / 16 % 16,
          tzOffsetSeconds :=
            (if b6 / 8 % 2 = 1 then (-1 : Int) else 1) *
              (decodeBCD (if b6 / 8 % 2 = 1 then b6 &&& 0xF7 else b6) : Int) *
              900 } := by
  constructor
  · decide
  · intro b0 b1 b2 b3 b4 b5 b6 rest
    have h8 : b6 &&& 8 = (b6.testBit 3).toNat * 8 := by
      have := Nat.and_two_pow b6 3
      norm_num at this
      exact this
    have hbit : (b6 &&& 8 ≠ 0) ↔ (b6 / 8 % 2 = 1) := by
      rw [h8, Nat.testBit_to_div_mod]
      norm_num
    have hcond : (b6 &&& 8 ≠ 0) = (b6 / 8 % 2 = 1) := propext hbit
    simp only [decodeSCTS, hcond, GoTime.mk.injEq]
    by_cases hb : b6 / 8 % 2 = 1 <;>
      refine ⟨?_, ?_, ?_, ?_, ?_, ?_, ?_⟩ <;>
        simp [decodeBCD, hb] <;> ring

end SMSGW
